import Mathlib

/-!
Verification of the grid / ray / cell-positioner core of the
`constructive-connectomics` repository (`pylineage/grid/cell_positioner.pyx`,
`pylineage/grid/ray.pyx` and the `pylineage/grid/grid` module it imports).

The Python code is shallowly embedded: the `Grid` dictionary becomes an
association list from coordinates to slot identities, mutable `GridSlot`
objects are identified by an object identity (`SlotId`) whose mutable
`index` and `grid` fields are tracked in per-state maps, and every fallible
operation returns `Except PyErr`.  C `double`s appearing in the ray and
direction-sampling code are modelled as exact rationals.
-/

/-- A grid coordinate: a tuple of integers (`Idx = Tuple[int, ...]` in
`pylineage/grid/grid`). -/
abbrev Idx := List Int

/-- A Python `GridSlot` object, identified by its object identity. -/
abbrev SlotId := Nat

/-- The Python exceptions the embedded code can raise. -/
inductive PyErr where
  | keyError
  | valueError
  | typeError
  | indexError
  deriving DecidableEq

/-- `self._content[idx]` as a total lookup (`idx in self._content` is
`(lookupIdx idx l).isSome`). -/
def lookupIdx (c : Idx) : List (Idx × SlotId) → Option SlotId
  | [] => none
  | p :: l => if p.1 = c then some p.2 else lookupIdx c l

/-- `del self._content[idx]`: remove the entry stored under key `c`. -/
def eraseKey (c : Idx) : List (Idx × SlotId) → List (Idx × SlotId)
  | [] => []
  | p :: l => if p.1 = c then l else p :: eraseKey c l

/-- `self._content[idx] = slot`: Python dict assignment; an existing key is
overwritten in place, a new key is appended. -/
def insertKey (c : Idx) (s : SlotId) : List (Idx × SlotId) → List (Idx × SlotId)
  | [] => [(c, s)]
  | p :: l => if p.1 = c then (c, s) :: l else p :: insertKey c s l

/-- The state of one `Grid` object together with the mutable fields of every
`GridSlot` object in the world.  `content` is the dictionary `self._content`;
`index s` is the `.index` field of slot `s`; `hasGrid s` records whether the
`.grid` field of slot `s` is non-`None`. -/
structure Grid where
  nDims : Nat
  content : List (Idx × SlotId)
  index : SlotId → Option Idx
  hasGrid : SlotId → Bool

/-- Field update `slot.index = v` for the slot-identity map. -/
def setIdx (f : SlotId → Option Idx) (s : SlotId) (v : Option Idx) :
    SlotId → Option Idx :=
  fun t => if t = s then v else f t

/-- Field update `slot.grid = ...` for the slot-identity map. -/
def setHG (f : SlotId → Bool) (s : SlotId) (b : Bool) : SlotId → Bool :=
  fun t => if t = s then b else f t

/-- The keys of the grid dictionary (`self._content.keys()`). -/
def Grid.keys (g : Grid) : List Idx := g.content.map Prod.fst

/-- The stored slots of the grid (`self._content.values()`). -/
def Grid.slots (g : Grid) : List SlotId := g.content.map Prod.snd

/-- `len(self.grid)`: the number of occupied coordinates. -/
def Grid.size (g : Grid) : Nat := g.content.length

/-- `idx in self.grid` (`Grid.__contains__`). -/
def occupied (g : Grid) (c : Idx) : Bool := (lookupIdx c g.content).isSome

/-- `Grid.__setitem__(self, idx, slot)` (grid module, lines 194-210):
raise `ValueError` on a dimension mismatch; if `slot.index` is a key of the
dictionary, delete that entry with a raw `del self._content[slot.index]`
(which does not touch the `.index` field of whatever slot was stored there);
if `idx` is occupied, orphan the occupant (`self._content[idx].index = None`);
finally `slot.index = idx` and store the entry. -/
def setC1 (g : Grid) (s : SlotId) : List (Idx × SlotId) :=
  match g.index s with
  | some old =>
      if (lookupIdx old g.content).isSome then eraseKey old g.content
      else g.content
  | none => g.content

/-- `Grid.__setitem__` continued: `if idx in self._content:
self._content[idx].index = None` — the slot-field map after the occupant of
`idx` (if any) has been orphaned. -/
def setIx1 (g : Grid) (c : Idx) (s : SlotId) : SlotId → Option Idx :=
  match lookupIdx c (setC1 g s) with
  | some t => setIdx g.index t none
  | none => g.index

/-- `Grid.__setitem__` continued: `slot.index = idx` and
`self._content[idx] = slot`. -/
def setBody (g : Grid) (c : Idx) (s : SlotId) : Grid :=
  { g with content := insertKey c s (setC1 g s),
           index := setIdx (setIx1 g c s) s (some c) }

/-- `Grid.__setitem__` top level: the dimension check, then the body. -/
def Grid.set (g : Grid) (c : Idx) (s : SlotId) : Except PyErr Grid :=
  if c.length ≠ g.nDims then .error .valueError else .ok (setBody g c s)

/-- `Grid.__delitem__(self, idx)` (grid module, lines 186-189):
`self._content[idx].index = None` (raising `KeyError` when `idx` is absent)
followed by `del self._content[idx]`. -/
def Grid.del (g : Grid) (c : Idx) : Except PyErr Grid :=
  match lookupIdx c g.content with
  | none => .error .keyError
  | some s =>
      .ok { g with content := eraseKey c g.content,
                   index := setIdx g.index s none }

/-- `Grid.make_position(self, index)` = `GridSlot(grid=self, index=index)`
(grid module): the constructor sets `self.index = None` and
`self.grid = grid`, then runs `grid[index] = self`, then `self.index = index`.
The fresh object is modelled by the caller-supplied identity `s`. -/
def mpInter (g : Grid) (s : SlotId) : Grid :=
  { g with index := setIdx g.index s none, hasGrid := setHG g.hasGrid s true }

/-- `Grid.make_position` continued: `grid[index] = self` and then
`self.index = index`. -/
def make_position (g : Grid) (c : Idx) (s : SlotId) : Except PyErr Grid :=
  match (mpInter g s).set c s with
  | .error e => .error e
  | .ok g1 => .ok { g1 with index := setIdx g1.index s (some c) }

/-- `GridSlot(grid=None, index=c)` (grid module, lines 131-138): with no grid
the constructor stores nothing in any grid but still executes
`self.index = index`, leaving an unplaced slot whose `.index` field is `c`. -/
def gridslot_no_grid (g : Grid) (s : SlotId) (c : Idx) : Grid :=
  { g with index := setIdx g.index s (some c), hasGrid := setHG g.hasGrid s false }

/-- The state invariant of reachable grids: dictionary keys are distinct,
every stored pair satisfies `slot.index == key`, and every key has the grid's
arity. -/
def Grid.WF (g : Grid) : Prop :=
  g.keys.Nodup ∧ (∀ p ∈ g.content, g.index p.2 = some p.1) ∧
    (∀ p ∈ g.content, p.1.length = g.nDims)

instance (g : Grid) : Decidable g.WF := by
  unfold Grid.WF; infer_instance

/-- `np.sign` on one component of the direction vector (converted to `int`
by the `cdef int[n] slope_sgn` assignment in `ray2`/`ray3`). -/
def np_sign (q : ℚ) : Int := if q < 0 then -1 else if 0 < q then 1 else 0

/-- `slope_sgn = np.sign(slope)` (ray.pyx). -/
def slope_sgn (slope : List ℚ) : List Int := slope.map np_sign

/-- `slope_abs = np.abs(slope)` (ray.pyx). -/
def slope_abs (slope : List ℚ) : List ℚ := slope.map (fun q => |q|)

/-- The `for i in range(n)` minimum search of `ray2`/`ray3`
(`min_dim = -1; min_step = 10e10; ... step_size = (1 - intercept[i]) /
slope_abs[i]; if step_size < min_step: ...`).  C doubles are modelled as
exact rationals.  On every reachable state an axis with `slope_abs[i] == 0`
has `intercept[i] == 0`, so its C step size is `1 / 0.0 = +inf`, which never
satisfies the strict comparison with `min_step`; such axes are therefore
skipped.  The result is `(min_dim, min_step)`, with `none` for the
`min_dim = -1` sentinel. -/
def select_min (sa ic : List ℚ) : Option Nat × ℚ :=
  (List.range sa.length).foldl
    (fun acc i =>
      if sa.getD i 0 = 0 then acc
      else
        if (1 - ic.getD i 0) / sa.getD i 0 < acc.2 then
          (some i, (1 - ic.getD i 0) / sa.getD i 0)
        else acc)
    (none, 100000000000)

/-- One iteration of the `while True` loop of `ray2`/`ray3`, as the
*trajectory abstraction* that the positioner theorems' chain hypotheses
quantify over: select the minimum-step axis, advance every intercept by
`min_step * slope_abs[i]`, reset the selected intercept to zero (the source
adds first and then resets, which is the same in exact arithmetic), and step
the selected coordinate by its sign over unbounded integers; the
`min_dim = -1` sentinel case ends the stream.  The machine-faithful model of
the generator — the sentinel iteration yielding the *unchanged* coordinate,
coordinates wrapping as 32-bit C ints — is `ray_step_c` below; it agrees
with this abstraction whenever an axis is selected and the stepped
coordinate does not overflow (`ray_step_c_refines`). -/
def ray_step (sgn : List Int) (sa : List ℚ) (st : List Int × List ℚ) :
    Option (List Int × List ℚ) :=
  match select_min sa st.2 with
  | (none, _) => none
  | (some m, ms) =>
      some (st.1.set m (st.1.getD m 0 + sgn.getD m 0),
            (List.range sa.length).map
              (fun i => if i = m then 0 else st.2.getD i 0 + ms * sa.getD i 0))

/-- The state of the `ray2`/`ray3` generator before yield `k`: the mutable
`idx` array and the `intercept` accumulators (initially zero).  The bodies of
`ray2` (lines 58-79) and `ray3` (lines 35-56) are identical up to the
dimension constant and are embedded once, parametrically. -/
def ray_states (slope : List ℚ) (index : List Int) :
    Nat → Option (List Int × List ℚ)
  | 0 => some (index, List.replicate index.length 0)
  | k + 1 =>
      match ray_states slope index k with
      | none => none
      | some st => ray_step (slope_sgn slope) (slope_abs slope) st

/-- The `k`-th coordinate yielded by the ray generator (0-based: the first
yield happens after one loop iteration). -/
def ray_yield (slope : List ℚ) (index : List Int) (k : Nat) : Option (List Int) :=
  (ray_states slope index (k + 1)).map Prod.fst

/-- The first `m` yielded coordinates, `none` if any step is undefined. -/
def ray_yields (slope : List ℚ) (index : List Int) :
    Nat → Option (List (List Int))
  | 0 => some []
  | m + 1 =>
      match ray_yields slope index m, ray_yield slope index m with
      | some l, some y => some (l ++ [y])
      | _, _ => none

/-- Proof device: the signed progress of a ray position `b` measured from
`a` — each well-defined ray step advances it by exactly one, so yielded
coordinates are pairwise distinct. -/
def pot (sgn : List Int) (a b : List Int) : Int :=
  ∑ i in Finset.range sgn.length, sgn.getD i 0 * (b.getD i 0 - a.getD i 0)

/-- Two's-complement wraparound of the source's `cdef int` coordinate
arithmetic: C ints are 32 bits, and `idx[min_dim] += slope_sgn[min_dim]`
wraps on overflow. -/
def wrap32 (z : Int) : Int := (z + 2 ^ 31) % 2 ^ 32 - 2 ^ 31

/-- One iteration of the `while True` loop of `ray2`/`ray3` at machine
level: select the minimum-step axis against the `min_step = 10e10` sentinel
and advance every intercept by `min_step * slope_abs[i]`; if an axis was
selected, reset its intercept to zero and step its coordinate by the
direction's sign, wrapping as a C `int`.  When no axis beats the sentinel,
`min_dim` stays `-1`: `intercept[min_dim] = 0` and
`idx[min_dim] += slope_sgn[min_dim]` then read and write index `-1`, out of
bounds of the C arrays, leaving the in-bounds entries unchanged — and
`yield idx` yields the *unchanged* coordinate. -/
def ray_step_c (sgn : List Int) (sa : List ℚ) (st : List Int × List ℚ) :
    List Int × List ℚ :=
  match select_min sa st.2 with
  | (none, ms) =>
      (st.1,
       (List.range sa.length).map (fun i => st.2.getD i 0 + ms * sa.getD i 0))
  | (some m, ms) =>
      (st.1.set m (wrap32 (st.1.getD m 0 + sgn.getD m 0)),
       (List.range sa.length).map
         (fun i => if i = m then 0 else st.2.getD i 0 + ms * sa.getD i 0))

/-- The machine-level generator state before yield `k`: the mutable
`cdef int[n] idx` array initialized from the origin (a Python int outside C
`int` range raises `OverflowError` at entry, so a running generator starts
in range) and the zero-initialized `intercept` accumulators. -/
def ray_states_c (slope : List ℚ) (index : List Int) :
    Nat → List Int × List ℚ
  | 0 => (index, List.replicate index.length 0)
  | k + 1 => ray_step_c (slope_sgn slope) (slope_abs slope)
      (ray_states_c slope index k)

/-- The `k`-th coordinate yielded by the machine-level generator (0-based).
Unlike the trajectory abstraction `ray_yield`, a yield exists at every `k`:
in the sentinel case the generator yields the unchanged coordinate. -/
def ray_yield_c (slope : List ℚ) (index : List Int) (k : Nat) : List Int :=
  (ray_states_c slope index (k + 1)).1

/-- `ray(index, slope)` (ray.pyx lines 26-33): dispatch on `len(index)`,
raising `ValueError("Index length not supported (only 2 or 3)")` otherwise.
`ray2`/`ray3` are generators, so the dispatcher itself can raise only this
dimensionality error; the successful result is the stream of yields. -/
def ray (index : List Int) (slope : List ℚ) :
    Except PyErr (Nat → Option (List Int)) :=
  if index.length = 2 ∨ index.length = 3 then .ok (ray_yield slope index)
  else .error .valueError

/-- The observable outcome of normalizing a sampled vector: either every
component was divided by a zero norm (IEEE: `0.0/0.0`, i.e. NaN, with no
exception raised), or by the positive norm `√normSq`. -/
inductive NormedVec where
  | dividedByZero
  | unitVec (x : List ℚ) (normSq : ℚ)
  deriving DecidableEq

/-- The squared Euclidean norm of the sampled vector.  The irrational norm
itself is represented by its square, which vanishes exactly when the norm
does. -/
def norm_sq (x : List ℚ) : ℚ := (x.map (fun a => a * a)).sum

/-- `random_direction3()` (cell_positioner.pyx lines 87-93):
`norm = sqrt(x[0]*x[0] + x[1]*x[1] + x[2]*x[2])`, then `x[i] /= norm` for
each `i`, with no guard against `norm == 0`; the sampled standard-normal
vector is the explicit argument `x`.  The embedding records whether those
divisions were performed with a zero divisor. -/
def random_direction3 (x : List ℚ) : NormedVec :=
  if norm_sq x = 0 then .dividedByZero else .unitVec x (norm_sq x)

/-- `random_direction(n)` (cell_positioner.pyx lines 80-85): the `n == 3`
fast path, else `x / np.linalg.norm(x)` — numpy also divides by a zero norm
without raising. -/
def random_direction (n : Nat) (x : List ℚ) : NormedVec :=
  if n = 3 then random_direction3 x
  else if norm_sq x = 0 then .dividedByZero else .unitVec x (norm_sq x)

/-- The adjacent indices probed by `GridSlot.neighbors`, in loop order:
`for i in range(n_dims): for s in [-1, +1]: new_index[i] += s`. -/
def adjacentIdx (c : Idx) : List Idx :=
  (List.range c.length).flatMap
    (fun i => [c.set i (c.getD i 0 - 1), c.set i (c.getD i 0 + 1)])

/-- `GridSlot.neighbors` (grid module, lines 146-159) as written: raise
`ValueError` if the slot has no grid or no index; then, for each dimension,
build `new_index = list(self.index)` — a Python *list* — and evaluate
`new_index in self.grid`.  `Grid.__contains__` checks `idx in self._content`,
and hashing a list as a dict key raises `TypeError: unhashable type: 'list'`.
So for `n_dims ≥ 1` the first membership test raises; only a 0-dimensional
grid runs the (empty) loop to completion. -/
def neighbors (g : Grid) (s : SlotId) : Except PyErr (List SlotId) :=
  if g.hasGrid s = false then .error .valueError
  else
    match g.index s with
    | none => .error .valueError
    | some _ => if g.nDims = 0 then .ok [] else .error .typeError

/-- Modelled from the spec: the neighbor query that the docstring of
`GridSlot.neighbors` and §4.3 of the spec describe — "the up-to-`2·n_dims`
grid entries at adjacent coordinates that exist" — i.e. the same loop with
the probed index converted back to a hashable tuple before the membership
test.  Used only to witness what the intended behaviour returns. -/
def neighbors_intended (g : Grid) (s : SlotId) : Except PyErr (List SlotId) :=
  if g.hasGrid s = false then .error .valueError
  else
    match g.index s with
    | none => .error .valueError
    | some c => .ok ((adjacentIdx c).filterMap (fun c' => lookupIdx c' g.content))

/-- The `while stack:` loop of `CellPositioner.shift` (lines 74-77), with the
stack already reversed into pop order: `free = i; i = stack.pop();
self.grid[free] = self.grid[i]`.  A missing entry at `i` would raise
`KeyError` from `Grid.__getitem__`. -/
def shiftMoves (g : Grid) : Idx → List Idx → Except PyErr Grid
  | _, [] => .ok g
  | free, i :: rest =>
      match lookupIdx i g.content with
      | none => .error .keyError
      | some s =>
          match g.set free s with
          | .error e => .error e
          | .ok g1 => shiftMoves g1 i rest

/-- `CellPositioner.make_space` / `CellPositioner.shift` (lines 58-77).  The
randomly sampled direction is the explicit argument `slope` (spec §5 requires
the randomness source to be threadable), and `n` is the number of occupied
coordinates the `for i in r:` loop collects before breaking at the first free
coordinate — the theorems' hypotheses state exactly that exit condition.
`ray(idx, direction)` raises the dimensionality `ValueError` for other
arities, and the `cdef int[n] slope_sgn = np.sign(slope)` conversion fails
for a direction of the wrong length.  `ys.getD n []` is the loop variable
`i` after the break (the free terminus); the stack `[idx] ++ chain` is popped
from its end, so `shiftMoves` receives it reversed.  A `none` from
`ray_yields` is the undefined `min_dim = -1` behaviour, excluded by the
theorems' hypotheses. -/
def make_space (g : Grid) (idx : List Int) (slope : List ℚ) (n : Nat) :
    Except PyErr Grid :=
  if ¬(idx.length = 2 ∨ idx.length = 3) then .error .valueError
  else if slope.length ≠ idx.length then .error .valueError
  else
    match ray_yields slope idx (n + 1) with
    | none => .error .valueError
    | some ys => shiftMoves g (ys.getD n []) ((idx :: ys.take n).reverse)

/-- The `for child in children[:-1]:` loop of
`CellPositioner.replace_with_children` (lines 49-52): each iteration re-reads
`idx = cell.position.index` (the parent slot's *current* coordinate), calls
`make_space(idx)` with a fresh random direction (the per-iteration `(slope,
n)` parameter), and places the child there via `make_position`.  A parent
index of `None` would make `ray(None, ...)` raise `TypeError` inside
`make_space`. -/
def rwc_loop (p : SlotId) :
    Grid → List (SlotId × (List ℚ × Nat)) → Except PyErr Grid
  | g, [] => .ok g
  | g, (ch, sl, n) :: rest =>
      match g.index p with
      | none => .error .typeError
      | some idx =>
          match make_space g idx sl n with
          | .error e => .error e
          | .ok g1 =>
              match make_position g1 idx ch with
              | .error e => .error e
              | .ok g2 => rwc_loop p g2 rest

/-- `CellPositioner.replace_with_children(cell)` (lines 44-56): run the loop
over `children[:-1]` (zipped with the per-iteration direction samples), then
re-read `idx = cell.position.index` once more and place the last child there
with `make_position`, *without* a preceding `make_space`.  `children[-1]` on
an empty list raises `IndexError`; a final parent index of `None` makes
`GridSlot.__init__` skip the grid insertion and just create an unplaced
slot. -/
def replace_with_children (g : Grid) (p : SlotId) (children : List SlotId)
    (rays : List (List ℚ × Nat)) : Except PyErr Grid :=
  match children.getLast? with
  | none => .error .indexError
  | some lastChild =>
      match rwc_loop p g (children.dropLast.zip rays) with
      | .error e => .error e
      | .ok g1 =>
          match g1.index p with
          | none =>
              .ok { g1 with index := setIdx g1.index lastChild none,
                            hasGrid := setHG g1.hasGrid lastChild true }
          | some idx => make_position g1 idx lastChild

/-- The loop-exit condition of `shift`'s `for i in r:` walk for one
`make_space` call: the first `n` yields of the ray are occupied and yield `n`
is free (and every ray step is defined and the direction has the right
length). -/
def chain_ok (g : Grid) (idx : List Int) (slope : List ℚ) (n : Nat) : Bool :=
  match ray_yields slope idx (n + 1) with
  | none => false
  | some ys =>
      decide (slope.length = idx.length) &&
      (List.range n).all (fun k => occupied g (ys.getD k [])) &&
      !(occupied g (ys.getD n []))

/-- The hypothesis of the replace-with-children theorems: at every iteration
of the loop the parent is placed and the sampled ray reaches a free
coordinate after exactly the recorded number of occupied steps. -/
def rays_ok (p : SlotId) :
    Grid → List (SlotId × (List ℚ × Nat)) → Bool
  | _, [] => true
  | g, (ch, sl, n) :: rest =>
      match g.index p with
      | none => false
      | some idx =>
          chain_ok g idx sl n &&
          (match make_space g idx sl n with
           | .error _ => false
           | .ok g1 =>
               match make_position g1 idx ch with
               | .error _ => false
               | .ok g2 => rays_ok p g2 rest)

/-- A grid mutation through the dictionary interface, for the invariant
claim: `grid[c] = s` or `del grid[c]`. -/
inductive GOp where
  | setOp (c : Idx) (s : SlotId)
  | delOp (c : Idx)

/-- Apply one operation; both `__setitem__` and `__delitem__` raise before
mutating anything, so a raised exception leaves the grid unchanged. -/
def applyOp (g : Grid) : GOp → Grid
  | .setOp c s =>
      match g.set c s with
      | .ok g1 => g1
      | .error _ => g
  | .delOp c =>
      match g.del c with
      | .ok g1 => g1
      | .error _ => g

/-- Run a finite sequence of `set`/`delete` operations. -/
def runOps (g : Grid) (ops : List GOp) : Grid := ops.foldl applyOp g

/-- `Grid(n_dims)`: a freshly constructed grid has an empty dictionary; the
slot objects of the world (and their fields) are arbitrary. -/
def emptyGrid (n : Nat) (ix0 : SlotId → Option Idx) (hg0 : SlotId → Bool) :
    Grid :=
  { nDims := n, content := [], index := ix0, hasGrid := hg0 }

/-- Observation of a fallible grid operation: the `.index` field of slot `t`
in the resulting state (`none` when the operation raised). -/
def obsIdx (r : Except PyErr Grid) (t : SlotId) : Option (Option Idx) :=
  match r with
  | .ok g => some (g.index t)
  | .error _ => none

/-- Observation of a fallible grid operation: the dictionary entry at `c`
in the resulting state (`none` when the operation raised). -/
def obsLookup (r : Except PyErr Grid) (c : Idx) : Option (Option SlotId) :=
  match r with
  | .ok g => some (lookupIdx c g.content)
  | .error _ => none

/-- A concrete 2-dimensional grid holding slot `0` at `(0,0)` and slot `1`
at `(1,0)`. -/
def gEx2 : Grid :=
  { nDims := 2
    content := [([0, 0], 0), ([1, 0], 1)]
    index := fun t => if t = 0 then some [0, 0] else
      if t = 1 then some [1, 0] else none
    hasGrid := fun t => t == 0 || t == 1 }

/-- A concrete 2-dimensional grid holding only the parent slot `0` at
`(0,0)` (the scenario of spec §8: one slot, two children). -/
def gPar : Grid :=
  { nDims := 2
    content := [([0, 0], 0)]
    index := fun t => if t = 0 then some [0, 0] else none
    hasGrid := fun t => t == 0 }

/-- A concrete 1-dimensional grid holding slot `0` at `(0,)`, after
`GridSlot(grid=None, index=(0,))` has additionally created the unplaced
slot `1` whose stale `.index` field also records `(0,)`. -/
def gStale : Grid :=
  gridslot_no_grid
    { nDims := 1
      content := [([0], 0)]
      index := fun t => if t = 0 then some [0] else none
      hasGrid := fun t => t == 0 }
    1 [0]

theorem lookupIdx_isSome_iff (c : Idx) (l : List (Idx × SlotId)) :
    (lookupIdx c l).isSome = true ↔ c ∈ l.map Prod.fst := by
  induction l with
  | nil => simp [lookupIdx]
  | cons p l ih =>
      by_cases h : p.1 = c
      · simp [lookupIdx, h]
      · simp [lookupIdx, h, ih, Ne.symm h]

theorem lookupIdx_mem {c : Idx} {s : SlotId} {l : List (Idx × SlotId)}
    (h : lookupIdx c l = some s) : (c, s) ∈ l := by
  induction l with
  | nil => simp [lookupIdx] at h
  | cons p l ih =>
      rw [lookupIdx] at h
      by_cases hp : p.1 = c
      · rw [if_pos hp] at h
        have : p = (c, s) := by
          cases p with
          | mk a b => simp only [Option.some.injEq] at h; simp_all
        simp [this]
      · rw [if_neg hp] at h
        exact List.mem_cons_of_mem _ (ih h)

theorem mem_lookupIdx {c : Idx} {s : SlotId} {l : List (Idx × SlotId)}
    (hn : (l.map Prod.fst).Nodup) (h : (c, s) ∈ l) :
    lookupIdx c l = some s := by
  induction l with
  | nil => simp at h
  | cons p l ih =>
      simp only [List.map_cons, List.nodup_cons] at hn
      rcases List.mem_cons.1 h with h | h
      · rw [lookupIdx, if_pos (by simp [← h]), ← h]
      · have hne : p.1 ≠ c := by
          intro e
          exact hn.1 (e ▸ List.mem_map.2 ⟨(c, s), h, rfl⟩)
        rw [lookupIdx, if_neg hne]
        exact ih hn.2 h

theorem eraseKey_sublist (c : Idx) (l : List (Idx × SlotId)) :
    (eraseKey c l).Sublist l := by
  induction l with
  | nil => simp [eraseKey]
  | cons p l ih =>
      rw [eraseKey]
      by_cases h : p.1 = c
      · rw [if_pos h]; exact (List.sublist_cons_self p l)
      · rw [if_neg h]; exact ih.cons₂ p

theorem mem_eraseKey {c : Idx} {p : Idx × SlotId} {l : List (Idx × SlotId)}
    (h : p ∈ eraseKey c l) : p ∈ l :=
  (eraseKey_sublist c l).mem h

theorem keys_eraseKey_nodup {c : Idx} {l : List (Idx × SlotId)}
    (hn : (l.map Prod.fst).Nodup) : ((eraseKey c l).map Prod.fst).Nodup :=
  hn.sublist ((eraseKey_sublist c l).map Prod.fst)

theorem lookupIdx_eraseKey_ne {c c' : Idx} (l : List (Idx × SlotId))
    (h : c' ≠ c) : lookupIdx c' (eraseKey c l) = lookupIdx c' l := by
  induction l with
  | nil => simp [eraseKey]
  | cons p l ih =>
      rw [eraseKey]
      by_cases hp : p.1 = c
      · rw [if_pos hp, lookupIdx, if_neg (by rw [hp]; exact fun e => h e.symm)]
      · rw [if_neg hp, lookupIdx, lookupIdx]
        by_cases hq : p.1 = c'
        · rw [if_pos hq, if_pos hq]
        · rw [if_neg hq, if_neg hq, ih]

theorem lookupIdx_eraseKey_self {c : Idx} {l : List (Idx × SlotId)}
    (hn : (l.map Prod.fst).Nodup) : lookupIdx c (eraseKey c l) = none := by
  induction l with
  | nil => simp [eraseKey, lookupIdx]
  | cons p l ih =>
      simp only [List.map_cons, List.nodup_cons] at hn
      rw [eraseKey]
      by_cases hp : p.1 = c
      · rw [if_pos hp]
        cases he : lookupIdx c l with
        | none => rfl
        | some s =>
            exact absurd (hp ▸ List.mem_map.2 ⟨(c, s), lookupIdx_mem he, rfl⟩)
              hn.1
      · rw [if_neg hp, lookupIdx, if_neg hp]
        exact ih hn.2

theorem eraseKey_of_not_mem {c : Idx} {l : List (Idx × SlotId)}
    (h : lookupIdx c l = none) : eraseKey c l = l := by
  induction l with
  | nil => rfl
  | cons p l ih =>
      rw [lookupIdx] at h
      by_cases hp : p.1 = c
      · rw [if_pos hp] at h; exact absurd h (by simp)
      · rw [if_neg hp] at h
        rw [eraseKey, if_neg hp, ih h]

theorem length_eraseKey_of_mem {c : Idx} {l : List (Idx × SlotId)}
    (h : (lookupIdx c l).isSome = true) :
    (eraseKey c l).length + 1 = l.length := by
  induction l with
  | nil => simp [lookupIdx] at h
  | cons p l ih =>
      rw [lookupIdx] at h
      rw [eraseKey]
      by_cases hp : p.1 = c
      · rw [if_pos hp]; rfl
      · rw [if_neg hp] at h
        rw [if_neg hp, List.length_cons, List.length_cons, ih h]

theorem lookupIdx_insertKey_self (c : Idx) (s : SlotId)
    (l : List (Idx × SlotId)) : lookupIdx c (insertKey c s l) = some s := by
  induction l with
  | nil => simp [insertKey, lookupIdx]
  | cons p l ih =>
      rw [insertKey]
      by_cases hp : p.1 = c
      · rw [if_pos hp, lookupIdx, if_pos rfl]
      · rw [if_neg hp, lookupIdx, if_neg hp]
        exact ih

theorem lookupIdx_insertKey_ne {c c' : Idx} (s : SlotId)
    (l : List (Idx × SlotId)) (h : c' ≠ c) :
    lookupIdx c' (insertKey c s l) = lookupIdx c' l := by
  induction l with
  | nil =>
      have hcc : ¬c = c' := fun e => h e.symm
      simp [insertKey, lookupIdx, hcc]
  | cons p l ih =>
      rw [insertKey]
      by_cases hp : p.1 = c
      · rw [if_pos hp, lookupIdx, if_neg (fun e => h e.symm), lookupIdx,
          if_neg (by rw [hp]; exact fun e => h e.symm)]
      · rw [if_neg hp, lookupIdx, lookupIdx]
        by_cases hq : p.1 = c'
        · rw [if_pos hq, if_pos hq]
        · rw [if_neg hq, if_neg hq, ih]

theorem keys_insertKey_of_mem {c : Idx} {s : SlotId} {l : List (Idx × SlotId)}
    (h : (lookupIdx c l).isSome = true) :
    (insertKey c s l).map Prod.fst = l.map Prod.fst := by
  induction l with
  | nil => simp [lookupIdx] at h
  | cons p l ih =>
      rw [lookupIdx] at h
      rw [insertKey]
      by_cases hp : p.1 = c
      · rw [if_pos hp]; simp [hp]
      · rw [if_neg hp] at h
        rw [if_neg hp, List.map_cons, List.map_cons, ih h]

theorem keys_insertKey_of_not_mem {c : Idx} {s : SlotId}
    {l : List (Idx × SlotId)} (h : lookupIdx c l = none) :
    (insertKey c s l).map Prod.fst = l.map Prod.fst ++ [c] := by
  induction l with
  | nil => simp [insertKey]
  | cons p l ih =>
      rw [lookupIdx] at h
      by_cases hp : p.1 = c
      · rw [if_pos hp] at h; exact absurd h (by simp)
      · rw [if_neg hp] at h
        rw [insertKey, if_neg hp, List.map_cons, List.map_cons, ih h,
          List.cons_append]

theorem length_insertKey_of_mem {c : Idx} {s : SlotId}
    {l : List (Idx × SlotId)} (h : (lookupIdx c l).isSome = true) :
    (insertKey c s l).length = l.length := by
  have := keys_insertKey_of_mem (s := s) h
  have h1 : ((insertKey c s l).map Prod.fst).length = (l.map Prod.fst).length := by
    rw [this]
  simpa using h1

theorem length_insertKey_of_not_mem {c : Idx} {s : SlotId}
    {l : List (Idx × SlotId)} (h : lookupIdx c l = none) :
    (insertKey c s l).length = l.length + 1 := by
  have := keys_insertKey_of_not_mem (s := s) h
  have h1 : ((insertKey c s l).map Prod.fst).length
      = (l.map Prod.fst ++ [c]).length := by rw [this]
  simpa using h1

theorem mem_insertKey {c : Idx} {s : SlotId} {p : Idx × SlotId}
    {l : List (Idx × SlotId)} (hn : (l.map Prod.fst).Nodup)
    (h : p ∈ insertKey c s l) :
    p = (c, s) ∨ (p ∈ l ∧ p.1 ≠ c) := by
  induction l with
  | nil => simp [insertKey] at h; exact Or.inl (by cases p; simp_all)
  | cons q l ih =>
      simp only [List.map_cons, List.nodup_cons] at hn
      rw [insertKey] at h
      by_cases hq : q.1 = c
      · rw [if_pos hq] at h
        rcases List.mem_cons.1 h with h | h
        · exact Or.inl h
        · refine Or.inr ⟨List.mem_cons_of_mem _ h, fun hp => ?_⟩
          exact hn.1 (hq ▸ hp ▸ List.mem_map.2 ⟨p, h, rfl⟩)
      · rw [if_neg hq] at h
        rcases List.mem_cons.1 h with h | h
        · subst h; exact Or.inr ⟨List.mem_cons_self _ _, hq⟩
        · rcases ih hn.2 h with h | h
          · exact Or.inl h
          · exact Or.inr ⟨List.mem_cons_of_mem _ h.1, h.2⟩

theorem lookupIdx_none_iff (c : Idx) (l : List (Idx × SlotId)) :
    lookupIdx c l = none ↔ c ∉ l.map Prod.fst := by
  rw [← lookupIdx_isSome_iff]
  cases lookupIdx c l <;> simp

theorem mem_eraseKey_iff {c : Idx} {p : Idx × SlotId} {l : List (Idx × SlotId)}
    (hn : (l.map Prod.fst).Nodup) : p ∈ eraseKey c l ↔ p ∈ l ∧ p.1 ≠ c := by
  induction l with
  | nil => simp [eraseKey]
  | cons q l ih =>
      simp only [List.map_cons, List.nodup_cons] at hn
      rw [eraseKey]
      by_cases hq : q.1 = c
      · rw [if_pos hq]
        constructor
        · intro h
          refine ⟨List.mem_cons_of_mem _ h, fun hp => hn.1 ?_⟩
          exact hq ▸ hp ▸ List.mem_map.2 ⟨p, h, rfl⟩
        · rintro ⟨h, hp⟩
          rcases List.mem_cons.1 h with h | h
          · exact absurd (by rw [h]; exact hq) hp
          · exact h
      · rw [if_neg hq]
        constructor
        · intro h
          rcases List.mem_cons.1 h with h | h
          · subst h; exact ⟨List.mem_cons_self _ _, hq⟩
          · have h2 := (ih hn.2).1 h
            exact ⟨List.mem_cons_of_mem _ h2.1, h2.2⟩
        · rintro ⟨h, hp⟩
          rcases List.mem_cons.1 h with h | h
          · subst h; exact List.mem_cons_self _ _
          · exact List.mem_cons_of_mem _ ((ih hn.2).2 ⟨h, hp⟩)

theorem self_mem_insertKey (c : Idx) (s : SlotId) (l : List (Idx × SlotId)) :
    (c, s) ∈ insertKey c s l := by
  induction l with
  | nil => simp [insertKey]
  | cons q l ih =>
      rw [insertKey]
      by_cases hq : q.1 = c
      · rw [if_pos hq]; exact List.mem_cons_self _ _
      · rw [if_neg hq]; exact List.mem_cons_of_mem _ ih

theorem mem_insertKey_of_mem {c : Idx} {s : SlotId} {p : Idx × SlotId}
    {l : List (Idx × SlotId)} (h : p ∈ l) (hp : p.1 ≠ c) :
    p ∈ insertKey c s l := by
  induction l with
  | nil => simp at h
  | cons q l ih =>
      rw [insertKey]
      rcases List.mem_cons.1 h with h | h
      · subst h
        rw [if_neg hp]
        exact List.mem_cons_self _ _
      · by_cases hq : q.1 = c
        · rw [if_pos hq]; exact List.mem_cons_of_mem _ h
        · rw [if_neg hq]; exact List.mem_cons_of_mem _ (ih h)

/-- Slot `s` is currently placed (stored) somewhere in the grid. -/
def stored (g : Grid) (s : SlotId) : Prop := s ∈ g.slots

instance (g : Grid) (s : SlotId) : Decidable (stored g s) := by
  unfold stored; infer_instance

theorem stored_iff {g : Grid} {s : SlotId} :
    stored g s ↔ ∃ p ∈ g.content, p.2 = s := by
  unfold stored Grid.slots
  constructor
  · intro h
    rcases List.mem_map.1 h with ⟨p, hp, he⟩
    exact ⟨p, hp, he⟩
  · rintro ⟨p, hp, he⟩
    exact List.mem_map.2 ⟨p, hp, he⟩

theorem Grid.WF.nodupKeys {g : Grid} (h : g.WF) :
    (g.content.map Prod.fst).Nodup := h.1

theorem Grid.WF.idx {g : Grid} (h : g.WF) :
    ∀ p ∈ g.content, g.index p.2 = some p.1 := h.2.1

theorem Grid.WF.len {g : Grid} (h : g.WF) :
    ∀ p ∈ g.content, p.1.length = g.nDims := h.2.2

theorem Grid.WF.lookup_inj {g : Grid} (h : g.WF) {a b : Idx} {s : SlotId}
    (ha : lookupIdx a g.content = some s)
    (hb : lookupIdx b g.content = some s) : a = b := by
  have h1 : g.index s = some a := h.idx (a, s) (lookupIdx_mem ha)
  have h2 : g.index s = some b := h.idx (b, s) (lookupIdx_mem hb)
  rw [h1] at h2
  exact Option.some.inj h2

theorem stored_lookup {g : Grid} {s : SlotId} (hn : (g.content.map Prod.fst).Nodup)
    (h : stored g s) : ∃ c, lookupIdx c g.content = some s := by
  rcases stored_iff.1 h with ⟨p, hp, rfl⟩
  exact ⟨p.1, mem_lookupIdx hn hp⟩

theorem lookup_stored {g : Grid} {c : Idx} {s : SlotId}
    (h : lookupIdx c g.content = some s) : stored g s :=
  stored_iff.2 ⟨(c, s), lookupIdx_mem h, rfl⟩

theorem setC1_nodup {g : Grid} {s : SlotId} (hn : (g.content.map Prod.fst).Nodup) :
    ((setC1 g s).map Prod.fst).Nodup := by
  unfold setC1
  cases g.index s with
  | none => exact hn
  | some old =>
      by_cases h : (lookupIdx old g.content).isSome = true
      · simp only [if_pos h]; exact keys_eraseKey_nodup hn
      · simp only [if_neg h]; exact hn

theorem setC1_sublist (g : Grid) (s : SlotId) : (setC1 g s).Sublist g.content := by
  unfold setC1
  cases g.index s with
  | none => exact List.Sublist.refl _
  | some old =>
      by_cases h : (lookupIdx old g.content).isSome = true
      · simp only [if_pos h]; exact eraseKey_sublist old g.content
      · simp only [if_neg h]; exact List.Sublist.refl _

theorem lookup_setC1 {g : Grid} (s : SlotId) (c' : Idx)
    (hn : (g.content.map Prod.fst).Nodup) :
    lookupIdx c' (setC1 g s)
      = if g.index s = some c' then none else lookupIdx c' g.content := by
  unfold setC1
  cases hgi : g.index s with
  | none => simp
  | some old =>
      by_cases hc : c' = old
      · subst hc
        rw [if_pos rfl]
        by_cases h : (lookupIdx c' g.content).isSome = true
        · simp only [if_pos h]; exact lookupIdx_eraseKey_self hn
        · simp only [if_neg h]
          cases hl : lookupIdx c' g.content with
          | none => rfl
          | some t => rw [hl] at h; simp at h
      · have hno : ¬(some old = some c') := by
          intro e; exact hc (Option.some.inj e).symm
        rw [if_neg hno]
        by_cases h : (lookupIdx old g.content).isSome = true
        · simp only [if_pos h]; exact lookupIdx_eraseKey_ne _ hc
        · simp only [if_neg h]

theorem setC1_not_slot {g : Grid} {s : SlotId} {p : Idx × SlotId} (hWF : g.WF)
    (hp : p ∈ setC1 g s) : p.2 ≠ s := by
  obtain ⟨a, b⟩ := p
  intro he
  dsimp only at he
  subst he
  have hmem : (a, b) ∈ g.content := (setC1_sublist g b).mem hp
  have hidx : g.index b = some a := hWF.idx (a, b) hmem
  have hsome : (lookupIdx a g.content).isSome = true := by
    rw [mem_lookupIdx hWF.nodupKeys hmem]; rfl
  unfold setC1 at hp
  rw [hidx] at hp
  simp only [if_pos hsome] at hp
  exact ((mem_eraseKey_iff hWF.nodupKeys).1 hp).2 rfl

theorem setBody_nDims (g : Grid) (c : Idx) (s : SlotId) :
    (setBody g c s).nDims = g.nDims := rfl

theorem setBody_hasGrid (g : Grid) (c : Idx) (s : SlotId) :
    (setBody g c s).hasGrid = g.hasGrid := rfl

theorem setBody_lookup_self (g : Grid) (c : Idx) (s : SlotId) :
    lookupIdx c (setBody g c s).content = some s :=
  lookupIdx_insertKey_self c s (setC1 g s)

theorem setBody_index_self (g : Grid) (c : Idx) (s : SlotId) :
    (setBody g c s).index s = some c := by
  show setIdx (setIx1 g c s) s (some c) s = some c
  simp [setIdx]

theorem setBody_lookup_ne {g : Grid} {c c' : Idx} (s : SlotId)
    (hn : (g.content.map Prod.fst).Nodup) (hne : c' ≠ c) :
    lookupIdx c' (setBody g c s).content
      = if g.index s = some c' then none else lookupIdx c' g.content := by
  show lookupIdx c' (insertKey c s (setC1 g s)) = _
  rw [lookupIdx_insertKey_ne s (setC1 g s) hne, lookup_setC1 s c' hn]

theorem setIx1_eq (g : Grid) (c : Idx) (s t : SlotId) :
    setIx1 g c s t
      = if lookupIdx c (setC1 g s) = some t then none else g.index t := by
  unfold setIx1
  cases h : lookupIdx c (setC1 g s) with
  | none => simp
  | some u =>
      by_cases ht : t = u
      · subst ht; simp [setIdx]
      · have : ¬(some u = some t) := fun e => ht (Option.some.inj e).symm
        simp only [if_neg this, setIdx, if_neg ht]

theorem setBody_index_ne {g : Grid} {c : Idx} {s t : SlotId} (ht : t ≠ s) :
    (setBody g c s).index t
      = if lookupIdx c (setC1 g s) = some t then none else g.index t := by
  show setIdx (setIx1 g c s) s (some c) t = _
  rw [setIdx, if_neg ht, setIx1_eq]

theorem mem_setC1_iff {g : Grid} {s : SlotId} {p : Idx × SlotId}
    (hn : (g.content.map Prod.fst).Nodup) :
    p ∈ setC1 g s ↔ p ∈ g.content ∧ g.index s ≠ some p.1 := by
  unfold setC1
  cases hgi : g.index s with
  | none => simp
  | some old =>
      by_cases h : (lookupIdx old g.content).isSome = true
      · simp only [if_pos h]
        rw [mem_eraseKey_iff hn]
        constructor
        · rintro ⟨hm, hne⟩
          exact ⟨hm, fun he => hne (Option.some.inj he).symm⟩
        · rintro ⟨hm, hne⟩
          exact ⟨hm, fun he => hne (by rw [he])⟩
      · simp only [if_neg h]
        constructor
        · intro hm
          refine ⟨hm, fun he => ?_⟩
          have : (lookupIdx old g.content).isSome = true := by
            rw [lookupIdx_isSome_iff]
            have : old = p.1 := Option.some.inj he
            exact this ▸ List.mem_map.2 ⟨p, hm, rfl⟩
          exact h this
        · exact fun hp => hp.1

theorem setBody_mem_iff {g : Grid} {c : Idx} {s : SlotId} {p : Idx × SlotId}
    (hn : (g.content.map Prod.fst).Nodup) :
    p ∈ (setBody g c s).content ↔ p = (c, s) ∨ (p ∈ setC1 g s ∧ p.1 ≠ c) := by
  constructor
  · exact mem_insertKey (setC1_nodup hn)
  · rintro (he | ⟨hm, hne⟩)
    · subst he; exact self_mem_insertKey c s (setC1 g s)
    · exact mem_insertKey_of_mem hm hne

theorem setBody_WF {g : Grid} {c : Idx} {s : SlotId} (hWF : g.WF)
    (hlen : c.length = g.nDims) : (setBody g c s).WF := by
  refine ⟨?_, ?_, ?_⟩
  · show ((insertKey c s (setC1 g s)).map Prod.fst).Nodup
    by_cases h : (lookupIdx c (setC1 g s)).isSome = true
    · rw [keys_insertKey_of_mem h]; exact setC1_nodup hWF.nodupKeys
    · have hnone : lookupIdx c (setC1 g s) = none :=
        Option.not_isSome_iff_eq_none.1 h
      rw [keys_insertKey_of_not_mem hnone]
      rw [List.nodup_append]
      refine ⟨setC1_nodup hWF.nodupKeys, List.nodup_singleton c, ?_⟩
      intro a ha hb
      have : a = c := by simpa using hb
      subst this
      exact (lookupIdx_none_iff a (setC1 g s)).1 hnone ha
  · intro p hp
    rcases mem_insertKey (setC1_nodup hWF.nodupKeys) hp with he | ⟨hmem, hne⟩
    · subst he
      exact setBody_index_self g c s
    · have hns : p.2 ≠ s := setC1_not_slot hWF hmem
      have hpc : p ∈ g.content := (setC1_sublist g s).mem hmem
      have hgi : g.index p.2 = some p.1 := hWF.idx p hpc
      rw [setBody_index_ne hns]
      by_cases hq : lookupIdx c (setC1 g s) = some p.2
      · exfalso
        have h2 : (c, p.2) ∈ g.content := (setC1_sublist g s).mem (lookupIdx_mem hq)
        have h3 : g.index p.2 = some c := hWF.idx (c, p.2) h2
        rw [hgi] at h3
        exact hne (Option.some.inj h3)
      · rw [if_neg hq]; exact hgi
  · intro p hp
    rcases mem_insertKey (setC1_nodup hWF.nodupKeys) hp with he | ⟨hmem, hne⟩
    · subst he; exact hlen
    · exact hWF.len p ((setC1_sublist g s).mem hmem)

theorem set_ok {g : Grid} {c : Idx} (s : SlotId) (hlen : c.length = g.nDims) :
    g.set c s = .ok (setBody g c s) := by
  rw [Grid.set, if_neg (fun h => h hlen)]

theorem set_ok_inv {g g' : Grid} {c : Idx} {s : SlotId}
    (h : g.set c s = .ok g') : c.length = g.nDims ∧ g' = setBody g c s := by
  rw [Grid.set] at h
  by_cases hlen : c.length = g.nDims
  · rw [if_neg (fun h2 => h2 hlen)] at h
    exact ⟨hlen, (Except.ok.inj h).symm⟩
  · rw [if_pos hlen] at h
    exact absurd h (by simp)

theorem setC1_of_stored {g : Grid} {i : Idx} {s : SlotId}
    (hgi : g.index s = some i) (hsome : (lookupIdx i g.content).isSome = true) :
    setC1 g s = eraseKey i g.content := by
  unfold setC1; rw [hgi]; simp only [if_pos hsome]

theorem setC1_of_index_none {g : Grid} {s : SlotId} (hgi : g.index s = none) :
    setC1 g s = g.content := by
  unfold setC1; rw [hgi]

theorem set_move {g : Grid} {i f : Idx} {s : SlotId} (hWF : g.WF)
    (hi : lookupIdx i g.content = some s) (hf : lookupIdx f g.content = none)
    (hlen : f.length = g.nDims) :
    g.set f s = .ok (setBody g f s)
    ∧ (setBody g f s).WF
    ∧ (setBody g f s).size = g.size
    ∧ lookupIdx f (setBody g f s).content = some s
    ∧ lookupIdx i (setBody g f s).content = none
    ∧ (∀ c', c' ≠ i → c' ≠ f →
        lookupIdx c' (setBody g f s).content = lookupIdx c' g.content)
    ∧ (∀ t, stored (setBody g f s) t ↔ stored g t)
    ∧ (setBody g f s).index s = some f
    ∧ (∀ t, t ≠ s → (setBody g f s).index t = g.index t) := by
  have hn := hWF.nodupKeys
  have hgi : g.index s = some i := hWF.idx (i, s) (lookupIdx_mem hi)
  have hif : i ≠ f := by
    intro e; rw [e, hf] at hi; exact Option.noConfusion hi
  have hC1 : setC1 g s = eraseKey i g.content :=
    setC1_of_stored hgi (by rw [hi]; rfl)
  have hlf : lookupIdx f (setC1 g s) = none := by
    rw [hC1, lookupIdx_eraseKey_ne _ (Ne.symm hif), hf]
  refine ⟨set_ok s hlen, setBody_WF hWF hlen, ?_, setBody_lookup_self g f s,
    ?_, ?_, ?_, setBody_index_self g f s, ?_⟩
  · show (insertKey f s (setC1 g s)).length = g.content.length
    rw [length_insertKey_of_not_mem hlf, hC1,
      length_eraseKey_of_mem (by rw [hi]; rfl)]
  · rw [setBody_lookup_ne s hn hif, hgi, if_pos rfl]
  · intro c' hci hcf
    rw [setBody_lookup_ne s hn hcf]
    rw [hgi, if_neg (fun e => hci (Option.some.inj e).symm)]
  · intro t
    rw [stored_iff, stored_iff]
    constructor
    · rintro ⟨p, hp, rfl⟩
      rcases (setBody_mem_iff hn).1 hp with he | ⟨hm, _⟩
      · subst he; exact ⟨(i, s), lookupIdx_mem hi, rfl⟩
      · exact ⟨p, (setC1_sublist g _).mem hm, rfl⟩
    · rintro ⟨⟨a, b⟩, hp, rfl⟩
      by_cases hts : b = s
      · exact ⟨(f, s), (setBody_mem_iff hn).2 (Or.inl rfl), hts.symm⟩
      · have hla : lookupIdx a g.content = some b := mem_lookupIdx hn hp
        have hai : a ≠ i := by
          intro e; rw [e, hi] at hla
          exact hts (Option.some.inj hla).symm
        have haf : a ≠ f := by
          intro e; rw [e, hf] at hla; exact Option.noConfusion hla
        refine ⟨(a, b), (setBody_mem_iff hn).2 (Or.inr ⟨?_, haf⟩), rfl⟩
        rw [hC1, mem_eraseKey_iff hn]
        exact ⟨hp, hai⟩
  · intro t ht
    rw [setBody_index_ne ht, if_neg (by rw [hlf]; simp)]

theorem set_fresh {g : Grid} {c : Idx} {s : SlotId} (hWF : g.WF)
    (hgi : g.index s = none) (hc : lookupIdx c g.content = none)
    (hlen : c.length = g.nDims) :
    g.set c s = .ok (setBody g c s)
    ∧ (setBody g c s).WF
    ∧ (setBody g c s).size = g.size + 1
    ∧ lookupIdx c (setBody g c s).content = some s
    ∧ (∀ c', c' ≠ c →
        lookupIdx c' (setBody g c s).content = lookupIdx c' g.content)
    ∧ (∀ t, stored (setBody g c s) t ↔ stored g t ∨ t = s)
    ∧ (setBody g c s).index s = some c
    ∧ (∀ t, t ≠ s → (setBody g c s).index t = g.index t) := by
  have hn := hWF.nodupKeys
  have hC1 : setC1 g s = g.content := setC1_of_index_none hgi
  have hlc : lookupIdx c (setC1 g s) = none := by rw [hC1, hc]
  refine ⟨set_ok s hlen, setBody_WF hWF hlen, ?_, setBody_lookup_self g c s,
    ?_, ?_, setBody_index_self g c s, ?_⟩
  · show (insertKey c s (setC1 g s)).length = g.content.length + 1
    rw [length_insertKey_of_not_mem hlc, hC1]
  · intro c' hcc
    rw [setBody_lookup_ne s hn hcc, hgi]
    simp
  · intro t
    rw [stored_iff, stored_iff]
    constructor
    · rintro ⟨p, hp, rfl⟩
      rcases (setBody_mem_iff hn).1 hp with he | ⟨hm, _⟩
      · subst he; exact Or.inr rfl
      · exact Or.inl ⟨p, (setC1_sublist g _).mem hm, rfl⟩
    · rintro (⟨⟨a, b⟩, hp, rfl⟩ | rfl)
      · have hla : lookupIdx a g.content = some b := mem_lookupIdx hn hp
        have hac : a ≠ c := by
          intro e; rw [e, hc] at hla; exact Option.noConfusion hla
        exact ⟨(a, b), (setBody_mem_iff hn).2 (Or.inr ⟨hC1 ▸ hp, hac⟩), rfl⟩
      · exact ⟨(c, t), (setBody_mem_iff hn).2 (Or.inl rfl), rfl⟩
  · intro t ht
    rw [setBody_index_ne ht, if_neg (by rw [hlc]; simp)]

theorem set_evict {g : Grid} {c : Idx} {s t0 : SlotId} (hWF : g.WF)
    (hgi : g.index s = none) (hc : lookupIdx c g.content = some t0)
    (hts : t0 ≠ s) (hlen : c.length = g.nDims) :
    g.set c s = .ok (setBody g c s)
    ∧ (setBody g c s).WF
    ∧ (setBody g c s).size = g.size
    ∧ lookupIdx c (setBody g c s).content = some s
    ∧ (∀ c', c' ≠ c →
        lookupIdx c' (setBody g c s).content = lookupIdx c' g.content)
    ∧ (∀ u, stored (setBody g c s) u ↔ (stored g u ∧ u ≠ t0) ∨ u = s)
    ∧ (setBody g c s).index s = some c
    ∧ (setBody g c s).index t0 = none
    ∧ ¬ stored (setBody g c s) t0
    ∧ (∀ u, u ≠ s → u ≠ t0 → (setBody g c s).index u = g.index u) := by
  have hn := hWF.nodupKeys
  have hC1 : setC1 g s = g.content := setC1_of_index_none hgi
  have hlc : lookupIdx c (setC1 g s) = some t0 := by rw [hC1, hc]
  have hstored : ∀ u, stored (setBody g c s) u ↔ (stored g u ∧ u ≠ t0) ∨ u = s := by
    intro u
    rw [stored_iff, stored_iff]
    constructor
    · rintro ⟨⟨a, b⟩, hp, rfl⟩
      rcases (setBody_mem_iff hn).1 hp with he | ⟨hm, hne⟩
      · rw [he]; exact Or.inr rfl
      · dsimp only at hne
        have hmm : (a, b) ∈ g.content := hC1 ▸ hm
        refine Or.inl ⟨⟨(a, b), hmm, rfl⟩, fun he => ?_⟩
        dsimp only at he
        subst he
        have h1 : g.index b = some a := hWF.idx (a, b) hmm
        have h2 : g.index b = some c := hWF.idx (c, b) (lookupIdx_mem hc)
        rw [h1] at h2
        exact hne (Option.some.inj h2)
    · rintro (⟨⟨⟨a, b⟩, hp, rfl⟩, hu⟩ | rfl)
      · have hla : lookupIdx a g.content = some b := mem_lookupIdx hn hp
        have hac : a ≠ c := by
          intro e; rw [e, hc] at hla
          exact hu (Option.some.inj hla).symm
        exact ⟨(a, b), (setBody_mem_iff hn).2 (Or.inr ⟨hC1 ▸ hp, hac⟩), rfl⟩
      · exact ⟨(c, u), (setBody_mem_iff hn).2 (Or.inl rfl), rfl⟩
  refine ⟨set_ok s hlen, setBody_WF hWF hlen, ?_, setBody_lookup_self g c s,
    ?_, hstored, setBody_index_self g c s, ?_, ?_, ?_⟩
  · show (insertKey c s (setC1 g s)).length = g.content.length
    rw [length_insertKey_of_mem (by rw [hlc]; rfl), hC1]
  · intro c' hcc
    rw [setBody_lookup_ne s hn hcc, hgi]
    simp
  · rw [setBody_index_ne (Ne.symm (Ne.symm hts)), hlc, if_pos rfl]
  · rw [hstored t0]
    simp [hts]
  · intro u hus hut
    rw [setBody_index_ne hus, hlc,
      if_neg (fun e => hut (Option.some.inj e).symm)]

theorem del_WF {g g' : Grid} {c : Idx} (hWF : g.WF) (h : g.del c = .ok g') :
    g'.WF := by
  unfold Grid.del at h
  cases hc : lookupIdx c g.content with
  | none => rw [hc] at h; exact absurd h (by simp)
  | some s =>
      rw [hc] at h
      obtain rfl : _ = g' := Except.ok.inj h
      refine ⟨keys_eraseKey_nodup hWF.nodupKeys, ?_, ?_⟩
      · intro p hp
        have hpm := (mem_eraseKey_iff hWF.nodupKeys).1 hp
        have hps : p.2 ≠ s := by
          intro e
          have h1 : g.index p.2 = some p.1 := hWF.idx p hpm.1
          have h2 : g.index s = some c := hWF.idx (c, s) (lookupIdx_mem hc)
          rw [e, h2] at h1
          exact hpm.2 (Option.some.inj h1).symm
        show setIdx g.index s none p.2 = some p.1
        rw [setIdx, if_neg hps]
        exact hWF.idx p hpm.1
      · intro p hp
        exact hWF.len p ((mem_eraseKey_iff hWF.nodupKeys).1 hp).1

theorem applyOp_WF {g : Grid} (hWF : g.WF) (op : GOp) : (applyOp g op).WF := by
  cases op with
  | setOp c s =>
      show (match g.set c s with | .ok g1 => g1 | .error _ => g).WF
      cases h : g.set c s with
      | error e => exact hWF
      | ok g1 =>
          obtain ⟨hlen, rfl⟩ := set_ok_inv h
          exact setBody_WF hWF hlen
  | delOp c =>
      show (match g.del c with | .ok g1 => g1 | .error _ => g).WF
      cases h : g.del c with
      | error e => exact hWF
      | ok g1 => exact del_WF hWF h

theorem runOps_WF {g : Grid} (hWF : g.WF) (ops : List GOp) :
    (runOps g ops).WF := by
  induction ops generalizing g with
  | nil => exact hWF
  | cons op ops ih => exact ih (applyOp_WF hWF op)

theorem emptyGrid_WF (n : Nat) (ix0 : SlotId → Option Idx)
    (hg0 : SlotId → Bool) : (emptyGrid n ix0 hg0).WF := by
  refine ⟨List.nodup_nil, ?_, ?_⟩ <;> intro p hp <;> exact absurd hp (by simp [emptyGrid])

theorem WF_update_unstored {g : Grid} {s : SlotId} {v : Option Idx}
    {b : SlotId → Bool} (hWF : g.WF) (hs : ¬ stored g s) :
    Grid.WF { g with index := setIdx g.index s v, hasGrid := b } := by
  refine ⟨hWF.nodupKeys, ?_, hWF.len⟩
  intro p hp
  have hps : p.2 ≠ s := fun e => hs (stored_iff.2 ⟨p, hp, e⟩)
  show setIdx g.index s v p.2 = some p.1
  rw [setIdx, if_neg hps]
  exact hWF.idx p hp

theorem WF_reindex_self {g : Grid} {s : SlotId} {c : Idx} (hWF : g.WF)
    (hgi : g.index s = some c) :
    Grid.WF { g with index := setIdx g.index s (some c) } := by
  refine ⟨hWF.nodupKeys, ?_, hWF.len⟩
  intro p hp
  show setIdx g.index s (some c) p.2 = some p.1
  rw [setIdx]
  by_cases hps : p.2 = s
  · rw [if_pos hps]
    have h1 := hWF.idx p hp
    rw [hps, hgi] at h1
    exact h1
  · rw [if_neg hps]
    exact hWF.idx p hp

theorem mpInter_index_self (g : Grid) (s : SlotId) :
    (mpInter g s).index s = none := by
  show setIdx g.index s none s = none
  rw [setIdx, if_pos rfl]

theorem mpInter_WF {g : Grid} {s : SlotId} (hWF : g.WF) (hs : ¬ stored g s) :
    (mpInter g s).WF :=
  WF_update_unstored hWF hs

theorem make_position_free {g : Grid} {c : Idx} {s : SlotId} (hWF : g.WF)
    (hs : ¬ stored g s) (hc : lookupIdx c g.content = none)
    (hlen : c.length = g.nDims) :
    ∃ g2, make_position g c s = .ok g2
    ∧ g2.WF
    ∧ g2.nDims = g.nDims
    ∧ g2.size = g.size + 1
    ∧ lookupIdx c g2.content = some s
    ∧ (∀ c', c' ≠ c → lookupIdx c' g2.content = lookupIdx c' g.content)
    ∧ (∀ t, stored g2 t ↔ stored g t ∨ t = s)
    ∧ g2.index s = some c
    ∧ (∀ t, t ≠ s → g2.index t = g.index t)
    ∧ (∀ t, t ≠ s → g2.hasGrid t = g.hasGrid t) := by
  have hWF0 : (mpInter g s).WF := mpInter_WF hWF hs
  have hst0 : ∀ t, stored (mpInter g s) t ↔ stored g t := by
    intro t; exact Iff.rfl
  obtain ⟨hok, hWF1, hsz, hlc, hlne, hstored, hixs, hixne⟩ :=
    set_fresh hWF0 (mpInter_index_self g s) hc hlen
  refine ⟨{ setBody (mpInter g s) c s with
      index := setIdx (setBody (mpInter g s) c s).index s (some c) },
    ?_, ?_, rfl, ?_, ?_, ?_, ?_, ?_, ?_, ?_⟩
  · unfold make_position
    rw [hok]
  · exact WF_reindex_self hWF1 hixs
  · exact hsz
  · exact hlc
  · exact hlne
  · intro t
    exact hstored t
  · show setIdx (setBody (mpInter g s) c s).index s (some c) s = some c
    rw [setIdx, if_pos rfl]
  · intro t ht
    show setIdx (setBody (mpInter g s) c s).index s (some c) t = g.index t
    rw [setIdx, if_neg ht, hixne t ht]
    show setIdx g.index s none t = g.index t
    rw [setIdx, if_neg ht]
  · intro t ht
    show (setBody (mpInter g s) c s).hasGrid t = g.hasGrid t
    rw [setBody_hasGrid]
    show setHG g.hasGrid s true t = g.hasGrid t
    rw [setHG, if_neg ht]

theorem make_position_evict {g : Grid} {c : Idx} {s t0 : SlotId} (hWF : g.WF)
    (hs : ¬ stored g s) (hc : lookupIdx c g.content = some t0)
    (hlen : c.length = g.nDims) :
    ∃ g2, make_position g c s = .ok g2
    ∧ g2.WF
    ∧ g2.nDims = g.nDims
    ∧ g2.size = g.size
    ∧ lookupIdx c g2.content = some s
    ∧ (∀ c', c' ≠ c → lookupIdx c' g2.content = lookupIdx c' g.content)
    ∧ (∀ u, stored g2 u ↔ (stored g u ∧ u ≠ t0) ∨ u = s)
    ∧ g2.index s = some c
    ∧ g2.index t0 = none
    ∧ ¬ stored g2 t0
    ∧ (∀ u, u ≠ s → u ≠ t0 → g2.index u = g.index u)
    ∧ (∀ u, u ≠ s → g2.hasGrid u = g.hasGrid u) := by
  have hts : t0 ≠ s := by
    intro e; exact hs (e ▸ lookup_stored hc)
  have hWF0 : (mpInter g s).WF := mpInter_WF hWF hs
  obtain ⟨hok, hWF1, hsz, hlc, hlne, hstored, hixs, hixt0, hnst, hixne⟩ :=
    set_evict hWF0 (mpInter_index_self g s) (show lookupIdx c (mpInter g s).content = some t0 from hc)
      hts hlen
  refine ⟨{ setBody (mpInter g s) c s with
      index := setIdx (setBody (mpInter g s) c s).index s (some c) },
    ?_, ?_, rfl, ?_, ?_, ?_, ?_, ?_, ?_, ?_, ?_, ?_⟩
  · unfold make_position
    rw [hok]
  · exact WF_reindex_self hWF1 hixs
  · exact hsz
  · exact hlc
  · exact hlne
  · intro u
    exact hstored u
  · show setIdx (setBody (mpInter g s) c s).index s (some c) s = some c
    rw [setIdx, if_pos rfl]
  · show setIdx (setBody (mpInter g s) c s).index s (some c) t0 = none
    rw [setIdx, if_neg hts, hixt0]
  · exact hnst
  · intro u hus hut
    show setIdx (setBody (mpInter g s) c s).index s (some c) u = g.index u
    rw [setIdx, if_neg hus, hixne u hus hut]
    show setIdx g.index s none u = g.index u
    rw [setIdx, if_neg hus]
  · intro u hus
    show (setBody (mpInter g s) c s).hasGrid u = g.hasGrid u
    rw [setBody_hasGrid]
    show setHG g.hasGrid s true u = g.hasGrid u
    rw [setHG, if_neg hus]

theorem getD_map_of_lt {α β : Type} (f : α → β) (l : List α) (d : α) (d' : β)
    (m : Nat) (hm : m < l.length) : (l.map f).getD m d' = f (l.getD m d) := by
  rw [List.getD_eq_getElem _ _ (by simpa using hm),
    List.getD_eq_getElem _ _ hm, List.getElem_map]

theorem np_sign_sq {q : ℚ} (hq : q ≠ 0) : np_sign q * np_sign q = 1 := by
  unfold np_sign
  rcases lt_trichotomy q 0 with h | h | h
  · rw [if_pos h]; ring
  · exact absurd h hq
  · rw [if_neg (not_lt.2 (le_of_lt h)), if_pos h]; ring

theorem select_fold_some (sa ic : List ℚ) :
    ∀ (l : List Nat) (acc : Option Nat × ℚ) (m : Nat),
      (l.foldl (fun acc i =>
        if sa.getD i 0 = 0 then acc
        else
          if (1 - ic.getD i 0) / sa.getD i 0 < acc.2 then
            (some i, (1 - ic.getD i 0) / sa.getD i 0)
          else acc) acc).1 = some m →
      acc.1 = some m ∨ (m ∈ l ∧ sa.getD m 0 ≠ 0)
  | [], _, m, h => Or.inl h
  | i :: l, acc, m, h => by
      rw [List.foldl_cons] at h
      rcases select_fold_some sa ic l _ m h with h2 | h2
      · by_cases hz : sa.getD i 0 = 0
        · rw [if_pos hz] at h2; exact Or.inl h2
        · rw [if_neg hz] at h2
          by_cases hlt : (1 - ic.getD i 0) / sa.getD i 0 < acc.2
          · rw [if_pos hlt] at h2
            have hi : i = m := by simpa using h2
            subst hi
            exact Or.inr ⟨List.mem_cons_self _ _, hz⟩
          · rw [if_neg hlt] at h2; exact Or.inl h2
      · exact Or.inr ⟨List.mem_cons_of_mem _ h2.1, h2.2⟩

theorem select_min_some {sa ic : List ℚ} {m : Nat}
    (h : (select_min sa ic).1 = some m) : m < sa.length ∧ sa.getD m 0 ≠ 0 := by
  unfold select_min at h
  rcases select_fold_some sa ic (List.range sa.length) (none, 100000000000) m h
      with h2 | h2
  · exact absurd h2 (by simp)
  · exact ⟨List.mem_range.1 h2.1, h2.2⟩

theorem ray_step_eq {sgn : List Int} {sa : List ℚ} {st st' : List Int × List ℚ}
    (h : ray_step sgn sa st = some st') :
    ∃ m, m < sa.length ∧ sa.getD m 0 ≠ 0 ∧
      st'.1 = st.1.set m (st.1.getD m 0 + sgn.getD m 0) := by
  unfold ray_step at h
  rcases hsel : select_min sa st.2 with ⟨mo, ms⟩
  rw [hsel] at h
  cases mo with
  | none => exact absurd h (by simp)
  | some m =>
      have hm := select_min_some (by rw [hsel] : (select_min sa st.2).1 = some m)
      refine ⟨m, hm.1, hm.2, ?_⟩
      have := Option.some.inj h
      rw [← this]

theorem ray_states_length {slope : List ℚ} {index : List Int} :
    ∀ {k : Nat} {st : List Int × List ℚ},
      ray_states slope index k = some st → st.1.length = index.length
  | 0, st, h => by
      rw [ray_states] at h
      rw [← Option.some.inj h]
  | k + 1, st, h => by
      rw [ray_states] at h
      cases h0 : ray_states slope index k with
      | none => rw [h0] at h; exact absurd h (by simp)
      | some st0 =>
          rw [h0] at h
          obtain ⟨m, _, _, he⟩ := ray_step_eq h
          rw [he, List.length_set]
          exact ray_states_length h0

theorem pot_self (sgn : List Int) (a : List Int) : pot sgn a a = 0 := by
  unfold pot
  simp

theorem getD_set_self {l : List Int} {m : Nat} (hm : m < l.length) (v : Int) :
    (l.set m v).getD m 0 = v := by
  rw [List.getD_eq_getElem _ _ (by simpa using hm)]
  exact List.getElem_set_self _

theorem getD_set_ne {l : List Int} {m i : Nat} (h : i ≠ m) (v : Int) :
    (l.set m v).getD i 0 = l.getD i 0 := by
  unfold List.getD
  rw [List.get?_set_ne v l (Ne.symm h)]

theorem pot_set {sgn : List Int} {a b : List Int} {m : Nat}
    (hm : m < sgn.length) (hb : m < b.length) (d : Int) :
    pot sgn a (b.set m (b.getD m 0 + d)) = pot sgn a b + sgn.getD m 0 * d := by
  unfold pot
  have hsum : ∀ i ∈ Finset.range sgn.length,
      sgn.getD i 0 * ((b.set m (b.getD m 0 + d)).getD i 0 - a.getD i 0)
        = sgn.getD i 0 * (b.getD i 0 - a.getD i 0)
          + (if i = m then sgn.getD m 0 * d else 0) := by
    intro i _
    by_cases hi : i = m
    · subst hi
      rw [if_pos rfl, getD_set_self hb]
      ring
    · rw [if_neg hi, getD_set_ne hi]
      ring
  rw [Finset.sum_congr rfl hsum, Finset.sum_add_distrib,
    Finset.sum_ite_eq' (Finset.range sgn.length) m (fun _ => sgn.getD m 0 * d),
    if_pos (Finset.mem_range.2 hm)]

theorem ray_states_pot {slope : List ℚ} {index : List Int}
    (hsl : slope.length = index.length) :
    ∀ {k : Nat} {st : List Int × List ℚ},
      ray_states slope index k = some st →
      pot (slope_sgn slope) index st.1 = k
  | 0, st, h => by
      rw [ray_states] at h
      rw [← Option.some.inj h]
      exact pot_self _ _
  | k + 1, st, h => by
      rw [ray_states] at h
      cases h0 : ray_states slope index k with
      | none => rw [h0] at h; exact absurd h (by simp)
      | some st0 =>
          rw [h0] at h
          obtain ⟨m, hm, hz, he⟩ := ray_step_eq h
          have hms : m < slope.length := by
            simpa [slope_abs] using hm
          have hsgnm : (slope_sgn slope).getD m 0 = np_sign (slope.getD m 0) :=
            getD_map_of_lt np_sign slope 0 0 m hms
          have hq : slope.getD m 0 ≠ 0 := by
            intro e
            rw [show (slope_abs slope).getD m 0 = |slope.getD m 0| from
              getD_map_of_lt _ slope 0 0 m hms, e] at hz
            simp at hz
          have hb : m < st0.1.length := by
            rw [ray_states_length h0, ← hsl]
            exact hms
          have hmsgn : m < (slope_sgn slope).length := by
            simpa [slope_sgn] using hms
          rw [he, pot_set hmsgn hb, ray_states_pot hsl h0, hsgnm, np_sign_sq hq]
          push_cast
          ring

theorem ray_yield_pot {slope : List ℚ} {index : List Int}
    (hsl : slope.length = index.length) {k : Nat} {y : List Int}
    (h : ray_yield slope index k = some y) :
    pot (slope_sgn slope) index y = (k : Int) + 1 := by
  unfold ray_yield at h
  cases hs : ray_states slope index (k + 1) with
  | none => rw [hs] at h; exact absurd h (by simp)
  | some st =>
      rw [hs] at h
      have := ray_states_pot hsl hs
      rw [show y = st.1 from (Option.some.inj h).symm, this]
      push_cast
      ring

theorem ray_yield_length {slope : List ℚ} {index : List Int} {k : Nat}
    {y : List Int} (h : ray_yield slope index k = some y) :
    y.length = index.length := by
  unfold ray_yield at h
  cases hs : ray_states slope index (k + 1) with
  | none => rw [hs] at h; exact absurd h (by simp)
  | some st =>
      rw [hs] at h
      rw [show y = st.1 from (Option.some.inj h).symm]
      exact ray_states_length hs

theorem ray_yield_ne_origin {slope : List ℚ} {index : List Int}
    (hsl : slope.length = index.length) {k : Nat} {y : List Int}
    (h : ray_yield slope index k = some y) : y ≠ index := by
  intro e
  have h1 := ray_yield_pot hsl h
  rw [e, pot_self] at h1
  omega

theorem ray_yield_ne {slope : List ℚ} {index : List Int}
    (hsl : slope.length = index.length) {j k : Nat} (hjk : j ≠ k)
    {yj yk : List Int} (hj : ray_yield slope index j = some yj)
    (hk : ray_yield slope index k = some yk) : yj ≠ yk := by
  intro e
  have h1 := ray_yield_pot hsl hj
  have h2 := ray_yield_pot hsl hk
  rw [e, h2] at h1
  omega

theorem ray_yields_spec {slope : List ℚ} {index : List Int} :
    ∀ {m : Nat} {ys : List (List Int)},
      ray_yields slope index m = some ys →
      ys.length = m ∧ ∀ k, k < m → ray_yield slope index k = some (ys.getD k [])
  | 0, ys, h => by
      rw [ray_yields] at h
      rw [← Option.some.inj h]
      exact ⟨rfl, fun k hk => absurd hk (by omega)⟩
  | m + 1, ys, h => by
      rw [ray_yields] at h
      cases h0 : ray_yields slope index m with
      | none => rw [h0] at h; exact absurd h (by simp)
      | some l =>
          rw [h0] at h
          cases hy : ray_yield slope index m with
          | none => rw [hy] at h; exact absurd h (by simp)
          | some y =>
              rw [hy] at h
              obtain ⟨hlen, hks⟩ := ray_yields_spec h0
              obtain rfl : l ++ [y] = ys := Option.some.inj h
              constructor
              · simp [hlen]
              · intro k hk
                by_cases hkm : k < m
                · rw [hks k hkm]
                  congr 1
                  have hkl : k < l.length := by omega
                  rw [List.getD_eq_getElem _ _ hkl,
                    List.getD_eq_getElem _ _ (by simp; omega),
                    List.getElem_append_left hkl]
                · have hkm2 : k = m := by omega
                  subst hkm2
                  rw [hy]
                  congr 1
                  rw [List.getD_eq_getElem _ _ (by simp; omega),
                    List.getElem_append_right (by omega)]
                  simp [hlen]

theorem chain_facts {slope : List ℚ} {index : List Int}
    (hsl : slope.length = index.length) {m : Nat} {ys : List (List Int)}
    (h : ray_yields slope index m = some ys) :
    (index :: ys).Nodup ∧ ∀ y ∈ ys, y.length = index.length := by
  obtain ⟨hlen, hks⟩ := ray_yields_spec h
  have hpot : ∀ (i : Nat) (hi : i < (index :: ys).length),
      pot (slope_sgn slope) index ((index :: ys).get ⟨i, hi⟩) = i := by
    intro i hi
    cases i with
    | zero => exact pot_self _ _
    | succ k =>
        have hkl : k < ys.length := by
          simp only [List.length_cons] at hi; omega
        have hk : k < m := by omega
        have hy := hks k hk
        have hget : (index :: ys).get ⟨k + 1, hi⟩ = ys.getD k [] := by
          show ys.get ⟨k, hkl⟩ = ys.getD k []
          rw [List.getD_eq_getElem _ _ hkl]
          rfl
        rw [hget, ray_yield_pot hsl hy]
        push_cast
        ring
  constructor
  · rw [List.nodup_iff_injective_get]
    intro i j hij
    have h1 := hpot i.1 i.2
    have h2 := hpot j.1 j.2
    rw [hij, h2] at h1
    have h3 : j.1 = i.1 := by exact_mod_cast h1
    exact Fin.ext h3.symm
  · intro y hy
    rcases List.mem_iff_getElem.1 hy with ⟨k, hk, rfl⟩
    have hgd : ys.getD k [] = ys[k] := List.getD_eq_getElem _ _ hk
    have := hks k (by omega)
    rw [← hgd]
    exact ray_yield_length this

theorem shiftMoves_spec :
    ∀ (l : List Idx) (g : Grid) (free : Idx),
      g.WF →
      (∀ i ∈ l, (lookupIdx i g.content).isSome = true) →
      lookupIdx free g.content = none →
      l.Nodup → free ∉ l →
      (∀ i ∈ l, i.length = g.nDims) → free.length = g.nDims →
      ∃ g', shiftMoves g free l = .ok g'
      ∧ g'.WF
      ∧ g'.nDims = g.nDims
      ∧ g'.hasGrid = g.hasGrid
      ∧ g'.size = g.size
      ∧ (∀ t, stored g' t ↔ stored g t)
      ∧ (∀ t, ¬ stored g t → g'.index t = g.index t)
      ∧ (∀ c', c' ∉ l → c' ≠ free →
          lookupIdx c' g'.content = lookupIdx c' g.content)
      ∧ (l = [] → g' = g)
      ∧ (∀ lst, l.getLast? = some lst →
          lookupIdx lst g'.content = none
          ∧ ∀ s, lookupIdx lst g.content = some s →
              g'.index s = some (l.dropLast.getLast?.getD free)
              ∧ lookupIdx (l.dropLast.getLast?.getD free) g'.content = some s)
  | [], g, free, hWF, _, hf, _, _, _, _ =>
      ⟨g, rfl, hWF, rfl, rfl, rfl, fun _ => Iff.rfl, fun _ _ => rfl,
        fun _ _ _ => rfl, fun _ => rfl, fun lst h => absurd h (by simp)⟩
  | i :: rest, g, free, hWF, hocc, hf, hnd, hfl, hlens, hflen => by
      obtain ⟨s, hs⟩ : ∃ s, lookupIdx i g.content = some s := by
        cases hl : lookupIdx i g.content with
        | none =>
            have := hocc i (List.mem_cons_self _ _)
            rw [hl] at this
            exact absurd this (by simp)
        | some s => exact ⟨s, rfl⟩
      obtain ⟨hok, hWF1, hsz1, hlf1, hli1, hlne1, hst1, hixs1, hixne1⟩ :=
        set_move hWF hs hf hflen
      have hnds := List.nodup_cons.1 hnd
      have hfi : free ≠ i := fun e => hfl (e ▸ List.mem_cons_self _ _)
      have hsstored : stored g s := lookup_stored hs
      obtain ⟨g', hrun, hWF', hnD', hHG', hsz', hst', hixu', hlu', hnil', hlast'⟩ :=
        shiftMoves_spec rest (setBody g free s) i hWF1
          (fun j hj => by
            have hji : j ≠ i := fun e => hnds.1 (e ▸ hj)
            have hjf : j ≠ free := fun e => hfl (e ▸ List.mem_cons_of_mem _ hj)
            rw [hlne1 j hji hjf]
            exact hocc j (List.mem_cons_of_mem _ hj))
          hli1 hnds.2 hnds.1
          (fun j hj => by
            rw [setBody_nDims]
            exact hlens j (List.mem_cons_of_mem _ hj))
          (by rw [setBody_nDims]; exact hlens i (List.mem_cons_self _ _))
      refine ⟨g', ?_, hWF', by rw [hnD', setBody_nDims],
        by rw [hHG', setBody_hasGrid], by rw [hsz', hsz1], ?_, ?_, ?_, ?_, ?_⟩
      · rw [shiftMoves, hs]
        dsimp only
        rw [hok]
        exact hrun
      · intro t
        rw [hst' t, hst1 t]
      · intro t ht
        have hts : t ≠ s := fun e => ht (e ▸ hsstored)
        have ht1 : ¬ stored (setBody g free s) t := fun h2 => ht ((hst1 t).1 h2)
        rw [hixu' t ht1, hixne1 t hts]
      · intro c' hcl hcf
        have hci : c' ≠ i := fun e => hcl (e ▸ List.mem_cons_self _ _)
        have hcr : c' ∉ rest := fun h2 => hcl (List.mem_cons_of_mem _ h2)
        rw [hlu' c' hcr hci, hlne1 c' hci hcf]
      · intro h
        exact absurd h (by simp)
      · intro lst hlst
        cases rest with
        | nil =>
            have hlsti : i = lst := by simpa using hlst
            subst hlsti
            have hg1 : g' = setBody g free s := hnil' rfl
            subst hg1
            refine ⟨hli1, fun s' hs' => ?_⟩
            have hss : s' = s := by
              rw [hs] at hs'
              exact (Option.some.inj hs').symm
            subst hss
            simp only [List.dropLast_single, List.getLast?_nil, Option.getD_none]
            exact ⟨hixs1, hlf1⟩
        | cons r rest' =>
            rw [List.getLast?_cons_cons] at hlst
            obtain ⟨hnone', htrack'⟩ := hlast' lst hlst
            have hlstmem : lst ∈ r :: rest' := List.mem_of_getLast?_eq_some hlst
            have hlsti : lst ≠ i := fun e => hnds.1 (e ▸ hlstmem)
            have hlstf : lst ≠ free := fun e =>
              hfl (e ▸ List.mem_cons_of_mem _ hlstmem)
            refine ⟨hnone', fun s' hs' => ?_⟩
            have hs1 : lookupIdx lst (setBody g free s).content = some s' := by
              rw [hlne1 lst hlsti hlstf]
              exact hs'
            obtain ⟨hidx2, hlk2⟩ := htrack' s' hs1
            have hdest : (i :: r :: rest').dropLast.getLast?.getD free
                = (r :: rest').dropLast.getLast?.getD i := by
              rw [List.dropLast_cons₂]
              cases hdl : (r :: rest').dropLast with
              | nil => simp
              | cons x xs =>
                  rw [List.getLast?_cons_cons]
                  cases hgl : (x :: xs).getLast? with
                  | none => exact absurd hgl (by simp)
                  | some a => rfl
            rw [hdest]
            exact ⟨hidx2, hlk2⟩

theorem mem_take_getD {ys : List (List Int)} {n : Nat} {i : List Int}
    (h : i ∈ ys.take n) : ∃ k, k < n ∧ k < ys.length ∧ ys.getD k [] = i := by
  rcases List.mem_iff_getElem.1 h with ⟨k, hk, he⟩
  have hk2 : k < n ∧ k < ys.length := by
    simpa [List.length_take] using hk
  refine ⟨k, hk2.1, hk2.2, ?_⟩
  have h1 : (ys.take n)[k]? = ys[k]? := List.getElem?_take_of_lt hk2.1
  rw [List.getElem?_eq_getElem hk, List.getElem?_eq_getElem hk2.2] at h1
  rw [List.getD_eq_getElem _ _ hk2.2, ← he, Option.some.inj h1]

theorem dropLast_reverse' {α : Type} (x : List α) :
    x.reverse.dropLast = x.tail.reverse := by
  have h := List.tail_reverse x.reverse
  rw [List.reverse_reverse] at h
  rw [← List.reverse_reverse (x.reverse.dropLast), ← h]

theorem make_space_spec {g : Grid} {idx : List Int} {slope : List ℚ} {n : Nat}
    {ys : List (List Int)}
    (hWF : g.WF)
    (hd : idx.length = 2 ∨ idx.length = 3)
    (hsl : slope.length = idx.length)
    (hys : ray_yields slope idx (n + 1) = some ys)
    (hocc : (lookupIdx idx g.content).isSome = true)
    (hch : ∀ k, k < n → (lookupIdx (ys.getD k []) g.content).isSome = true)
    (hfree : lookupIdx (ys.getD n []) g.content = none)
    (hlen : idx.length = g.nDims) :
    ∃ g', make_space g idx slope n = .ok g'
    ∧ g'.WF
    ∧ g'.nDims = g.nDims
    ∧ g'.hasGrid = g.hasGrid
    ∧ g'.size = g.size
    ∧ lookupIdx idx g'.content = none
    ∧ (∀ t, stored g' t ↔ stored g t)
    ∧ (∀ t, ¬ stored g t → g'.index t = g.index t)
    ∧ (∀ s, lookupIdx idx g.content = some s →
        g'.index s = some (ys.getD 0 [])
        ∧ lookupIdx (ys.getD 0 []) g'.content = some s)
    ∧ (∀ c', c' ∉ (idx :: ys) →
        lookupIdx c' g'.content = lookupIdx c' g.content) := by
  obtain ⟨hyslen, hyk⟩ := ray_yields_spec hys
  obtain ⟨hnodup, hylens⟩ := chain_facts hsl hys
  have hnlt : n < ys.length := by omega
  have hfree_mem : ys.getD n [] ∈ ys.drop n := by
    rw [List.drop_eq_getElem_cons hnlt, List.getD_eq_getElem _ _ hnlt]
    exact List.mem_cons_self _ _
  have hsplit : idx :: ys = (idx :: ys.take n) ++ ys.drop n := by
    rw [List.cons_append, List.take_append_drop]
  have hdisj : List.Disjoint (idx :: ys.take n) (ys.drop n) := by
    have h2 := hsplit ▸ hnodup
    exact (List.nodup_append.1 h2).2.2
  have hfni : ys.getD n [] ∉ idx :: ys.take n := by
    intro hmem
    exact hdisj hmem hfree_mem
  have hnd2 : (idx :: ys.take n).Nodup :=
    hnodup.sublist ((List.take_sublist n ys).cons₂ idx)
  have hlens2 : ∀ i ∈ idx :: ys.take n, i.length = g.nDims := by
    intro i hi
    rcases List.mem_cons.1 hi with rfl | hi
    · exact hlen
    · obtain ⟨k, _, hk2, rfl⟩ := mem_take_getD hi
      rw [hylens _ (by rw [List.getD_eq_getElem _ _ hk2]; exact List.getElem_mem _)]
      exact hlen
  have hocc2 : ∀ i ∈ idx :: ys.take n, (lookupIdx i g.content).isSome = true := by
    intro i hi
    rcases List.mem_cons.1 hi with rfl | hi
    · exact hocc
    · obtain ⟨k, hk1, _, rfl⟩ := mem_take_getD hi
      exact hch k hk1
  have hflen2 : (ys.getD n []).length = g.nDims := by
    rw [hylens _ (by rw [List.getD_eq_getElem _ _ hnlt]; exact List.getElem_mem _)]
    exact hlen
  obtain ⟨g', hrun, hWF', hnD', hHG', hsz', hst', hixu', hlu', _, hlast'⟩ :=
    shiftMoves_spec ((idx :: ys.take n).reverse) g (ys.getD n []) hWF
      (fun i hi => hocc2 i (List.mem_reverse.1 hi))
      hfree
      (List.nodup_reverse.2 hnd2)
      (fun h2 => hfni (List.mem_reverse.1 h2))
      (fun i hi => hlens2 i (List.mem_reverse.1 hi))
      hflen2
  have hgl : ((idx :: ys.take n).reverse).getLast? = some idx := by
    rw [List.getLast?_reverse]
    rfl
  obtain ⟨hidx_none, htrack⟩ := hlast' idx hgl
  have hdest : ((idx :: ys.take n).reverse).dropLast.getLast?.getD (ys.getD n [])
      = ys.getD 0 [] := by
    rw [dropLast_reverse']
    show ((ys.take n).reverse).getLast?.getD (ys.getD n []) = ys.getD 0 []
    rw [List.getLast?_reverse]
    cases n with
    | zero => rfl
    | succ k =>
        cases ys with
        | nil => simp at hyslen
        | cons y0 ys' => rfl
  refine ⟨g', ?_, hWF', hnD', hHG', hsz', hidx_none, hst', hixu', ?_, ?_⟩
  · unfold make_space
    rw [if_neg (not_not_intro hd), if_neg (fun h2 => h2 hsl), hys]
    exact hrun
  · intro s hsx
    have := htrack s hsx
    rw [hdest] at this
    exact this
  · intro c' hc
    have hc1 : c' ∉ (idx :: ys.take n).reverse := by
      rw [List.mem_reverse]
      intro h2
      rcases List.mem_cons.1 h2 with rfl | h2
      · exact hc (List.mem_cons_self _ _)
      · exact hc (List.mem_cons_of_mem _ ((List.take_sublist n ys).mem h2))
    have hc2 : c' ≠ ys.getD n [] := by
      intro e
      refine hc (e ▸ List.mem_cons_of_mem _ ?_)
      rw [List.getD_eq_getElem _ _ hnlt]
      exact List.getElem_mem _
    exact hlu' c' hc1 hc2

theorem chain_ok_spec {g : Grid} {idx : List Int} {slope : List ℚ} {n : Nat}
    (h : chain_ok g idx slope n = true) :
    ∃ ys, ray_yields slope idx (n + 1) = some ys
    ∧ slope.length = idx.length
    ∧ (∀ k, k < n → (lookupIdx (ys.getD k []) g.content).isSome = true)
    ∧ lookupIdx (ys.getD n []) g.content = none := by
  unfold chain_ok at h
  cases hys : ray_yields slope idx (n + 1) with
  | none => rw [hys] at h; exact absurd h (by simp)
  | some ys =>
      rw [hys] at h
      simp only [Bool.and_eq_true, decide_eq_true_eq, List.all_eq_true,
        Bool.not_eq_true'] at h
      refine ⟨ys, rfl, h.1.1, ?_, ?_⟩
      · intro k hk
        exact h.1.2 k (List.mem_range.2 hk)
      · have h2 := h.2
        unfold occupied at h2
        cases hl : lookupIdx (ys.getD n []) g.content with
        | none => rfl
        | some s => rw [hl] at h2; simp at h2

theorem rwc_loop_spec :
    ∀ (l : List (SlotId × (List ℚ × Nat))) (g : Grid) (p : SlotId),
      g.WF →
      (g.nDims = 2 ∨ g.nDims = 3) →
      stored g p →
      (∀ e ∈ l, ¬ stored g e.1) →
      (l.map Prod.fst).Nodup →
      rays_ok p g l = true →
      ∃ g', rwc_loop p g l = .ok g'
      ∧ g'.WF
      ∧ g'.nDims = g.nDims
      ∧ g'.size = g.size + l.length
      ∧ stored g' p
      ∧ (∀ t, stored g' t ↔ stored g t ∨ t ∈ l.map Prod.fst)
      ∧ (∀ t, ¬ stored g t → t ∉ l.map Prod.fst → g'.index t = g.index t)
  | [], g, p, hWF, _, hp, _, _, _ =>
      ⟨g, rfl, hWF, rfl, by simp, hp, fun t => by simp, fun t _ _ => rfl⟩
  | (ch, sl, n) :: rest, g, p, hWF, hdims, hp, hfresh, hnd, hro => by
      rw [rays_ok] at hro
      cases hip : g.index p with
      | none => rw [hip] at hro; exact absurd hro (by simp)
      | some idx =>
          rw [hip] at hro
          simp only [Bool.and_eq_true] at hro
          obtain ⟨hco, hrest⟩ := hro
          obtain ⟨ys, hys, hsl, hch, hfree⟩ := chain_ok_spec hco
          obtain ⟨cp, hcp0⟩ := stored_lookup hWF.nodupKeys hp
          have hcpi : cp = idx := by
            have h2 : g.index p = some cp := hWF.idx (cp, p) (lookupIdx_mem hcp0)
            rw [hip] at h2
            exact (Option.some.inj h2).symm
          have hcp : lookupIdx idx g.content = some p := by
            rw [← hcpi]; exact hcp0
          have hlen : idx.length = g.nDims := hWF.len (idx, p) (lookupIdx_mem hcp)
          have hd : idx.length = 2 ∨ idx.length = 3 := by
            rw [hlen]; exact hdims
          obtain ⟨g1, hms, hWF1, hnD1, hHG1, hsz1, hidxf, hst1, hixu1, htr1, _⟩ :=
            make_space_spec hWF hd hsl hys (by rw [hcp]; rfl) hch hfree hlen
          obtain ⟨hpix1, hplk1⟩ := htr1 p hcp
          have hp1 : stored g1 p := lookup_stored hplk1
          have hchfresh : ¬ stored g1 ch := by
            intro h2
            exact (hfresh (ch, sl, n) (List.mem_cons_self _ _)) ((hst1 ch).1 h2)
          obtain ⟨g2, hmp, hWF2, hnD2, hsz2, hlk2, hlkne2, hst2, hix2, hixne2, _⟩ :=
            make_position_free hWF1 hchfresh hidxf (by rw [hnD1]; exact hlen)
          have hp2 : stored g2 p := by
            rw [hst2 p]
            exact Or.inl hp1
          have hmnd : (ch :: rest.map Prod.fst).Nodup := by simpa using hnd
          have hndr := List.nodup_cons.1 hmnd
          obtain ⟨g', hrun, hWF', hnD', hsz', hp', hst', hixu'⟩ :=
            rwc_loop_spec rest g2 p hWF2
              (by rw [hnD2, hnD1]; exact hdims)
              hp2
              (fun e he => by
                rw [hst2 e.1]
                push_neg
                constructor
                · intro h2
                  exact (hfresh e (List.mem_cons_of_mem _ he)) ((hst1 e.1).1 h2)
                · intro h2
                  exact hndr.1 (h2 ▸ List.mem_map.2 ⟨e, he, rfl⟩))
              hndr.2
              (by
                rw [hms] at hrest
                dsimp only at hrest
                rw [hmp] at hrest
                dsimp only at hrest
                exact hrest)
          refine ⟨g', ?_, hWF', by rw [hnD', hnD2, hnD1], ?_, hp', ?_, ?_⟩
          · rw [rwc_loop, hip]
            dsimp only
            rw [hms]
            dsimp only
            rw [hmp]
            exact hrun
          · rw [hsz', hsz2, hsz1]
            simp only [List.length_cons]
            omega
          · intro t
            rw [hst' t, hst2 t, hst1 t]
            simp only [List.map_cons, List.mem_cons]
            tauto
          · intro t htg htl
            simp only [List.map_cons, List.mem_cons] at htl
            push_neg at htl
            have ht1 : ¬ stored g1 t := fun h2 => htg ((hst1 t).1 h2)
            have ht2 : ¬ stored g2 t := by
              rw [hst2 t]
              push_neg
              exact ⟨ht1, htl.1⟩
            rw [hixu' t ht2 htl.2, hixne2 t htl.1, hixu1 t htg]

theorem replace_with_children_spec {g : Grid} {p : SlotId}
    {children : List SlotId} {rays : List (List ℚ × Nat)}
    (hWF : g.WF) (hdims : g.nDims = 2 ∨ g.nDims = 3)
    (hp : stored g p)
    (hk : children ≠ [])
    (hfresh : ∀ ch ∈ children, ¬ stored g ch)
    (hnd : children.Nodup)
    (hlen : rays.length = children.length - 1)
    (hro : rays_ok p g (children.dropLast.zip rays) = true) :
    ∃ g', replace_with_children g p children rays = .ok g'
    ∧ g'.WF
    ∧ g'.size + 1 = g.size + children.length
    ∧ (∀ ch ∈ children, ∃ c, lookupIdx c g'.content = some ch
        ∧ g'.index ch = some c)
    ∧ (∀ ch1 ch2 c, ch1 ∈ children → ch2 ∈ children →
        g'.index ch1 = some c → g'.index ch2 = some c → ch1 = ch2)
    ∧ g'.index p = none ∧ ¬ stored g' p := by
  obtain ⟨last, hlast⟩ : ∃ last, children.getLast? = some last := by
    cases hg : children.getLast? with
    | none => exact absurd (List.getLast?_eq_none_iff.1 hg) hk
    | some a => exact ⟨a, rfl⟩
  have hsplit : children.dropLast ++ [last] = children :=
    List.dropLast_append_getLast? last hlast
  have hlastmem : last ∈ children := List.mem_of_getLast?_eq_some hlast
  have hlastnd : last ∉ children.dropLast := by
    intro h2
    have := hsplit ▸ hnd
    exact ((List.nodup_append.1 this).2.2) h2 (List.mem_cons_self _ _)
  have hdllen : children.dropLast.length = children.length - 1 := by
    have h2 := congrArg List.length hsplit
    simp only [List.length_append, List.length_cons, List.length_nil] at h2
    omega
  have hmapfst : ((children.dropLast.zip rays).map Prod.fst)
      = children.dropLast :=
    List.map_fst_zip _ _ (by omega)
  obtain ⟨g1, hrun1, hWF1, hnD1, hsz1, hp1, hst1, hixu1⟩ :=
    rwc_loop_spec (children.dropLast.zip rays) g p hWF hdims hp
      (fun e he => hfresh e.1
        ((List.dropLast_sublist children).mem
          (hmapfst ▸ List.mem_map.2 ⟨e, he, rfl⟩)))
      (by rw [hmapfst]; exact hnd.sublist (List.dropLast_sublist children))
      hro
  obtain ⟨cfin, hcfin⟩ := stored_lookup hWF1.nodupKeys hp1
  have hipfin : g1.index p = some cfin := hWF1.idx (cfin, p) (lookupIdx_mem hcfin)
  have hlfresh1 : ¬ stored g1 last := by
    rw [hst1 last, hmapfst]
    push_neg
    exact ⟨hfresh last hlastmem, hlastnd⟩
  have hpl : p ≠ last := by
    intro e
    exact hfresh last hlastmem (e ▸ hp)
  have hcfinlen : cfin.length = g1.nDims :=
    hWF1.len (cfin, p) (lookupIdx_mem hcfin)
  obtain ⟨g2, hrun2, hWF2, hnD2, hsz2, hlk2, hlkne2, hst2, hixl2, hixp2, hnsp2,
      hixne2, _⟩ :=
    make_position_evict hWF1 hlfresh1 hcfin hcfinlen
  have hzl : (children.dropLast.zip rays).length = children.length - 1 := by
    rw [List.length_zip]
    omega
  have hklen : 1 ≤ children.length := by
    cases children with
    | nil => exact absurd rfl hk
    | cons a l => simp
  refine ⟨g2, ?_, hWF2, ?_, ?_, ?_, ?_, ?_⟩
  · unfold replace_with_children
    rw [hlast]
    dsimp only
    rw [hrun1]
    dsimp only
    rw [hipfin]
    exact hrun2
  · rw [hsz2, hsz1, hzl]
    omega
  · intro ch hch
    by_cases hchl : ch = last
    · subst hchl
      exact ⟨cfin, hlk2, hixl2⟩
    · have hchdl : ch ∈ children.dropLast := by
        have h2 := hsplit ▸ hch
        rcases List.mem_append.1 h2 with h3 | h3
        · exact h3
        · exact absurd (by simpa using h3) hchl
      have hchst : stored g2 ch := by
        rw [hst2 ch]
        refine Or.inl ⟨?_, ?_⟩
        · rw [hst1 ch, hmapfst]
          exact Or.inr hchdl
        · intro e
          exact hfresh ch hch (e ▸ hp)
      obtain ⟨c, hc⟩ := stored_lookup hWF2.nodupKeys hchst
      exact ⟨c, hc, hWF2.idx (c, ch) (lookupIdx_mem hc)⟩
  · intro ch1 ch2 c hch1 hch2 hix1 hix2
    have h1 : ∃ c1, lookupIdx c1 g2.content = some ch1 ∧ g2.index ch1 = some c1 := by
      by_cases hchl : ch1 = last
      · subst hchl; exact ⟨cfin, hlk2, hixl2⟩
      · have hchdl : ch1 ∈ children.dropLast := by
          have h2 := hsplit ▸ hch1
          rcases List.mem_append.1 h2 with h3 | h3
          · exact h3
          · exact absurd (by simpa using h3) hchl
        have hchst : stored g2 ch1 := by
          rw [hst2 ch1]
          refine Or.inl ⟨?_, fun e => hfresh ch1 hch1 (e ▸ hp)⟩
          rw [hst1 ch1, hmapfst]
          exact Or.inr hchdl
        obtain ⟨c1, hc1⟩ := stored_lookup hWF2.nodupKeys hchst
        exact ⟨c1, hc1, hWF2.idx (c1, ch1) (lookupIdx_mem hc1)⟩
    have h2 : ∃ c2, lookupIdx c2 g2.content = some ch2 ∧ g2.index ch2 = some c2 := by
      by_cases hchl : ch2 = last
      · subst hchl; exact ⟨cfin, hlk2, hixl2⟩
      · have hchdl : ch2 ∈ children.dropLast := by
          have h3 := hsplit ▸ hch2
          rcases List.mem_append.1 h3 with h4 | h4
          · exact h4
          · exact absurd (by simpa using h4) hchl
        have hchst : stored g2 ch2 := by
          rw [hst2 ch2]
          refine Or.inl ⟨?_, fun e => hfresh ch2 hch2 (e ▸ hp)⟩
          rw [hst1 ch2, hmapfst]
          exact Or.inr hchdl
        obtain ⟨c2, hc2⟩ := stored_lookup hWF2.nodupKeys hchst
        exact ⟨c2, hc2, hWF2.idx (c2, ch2) (lookupIdx_mem hc2)⟩
    obtain ⟨c1, hlc1, hic1⟩ := h1
    obtain ⟨c2, hlc2, hic2⟩ := h2
    rw [hix1] at hic1
    rw [hix2] at hic2
    obtain rfl : c = c1 := Option.some.inj hic1
    obtain rfl : c = c2 := Option.some.inj hic2
    rw [hlc1] at hlc2
    exact Option.some.inj hlc2
  · exact hixp2
  · exact hnsp2

theorem np_sign_pm {q : ℚ} (h : q ≠ 0) : np_sign q = 1 ∨ np_sign q = -1 := by
  unfold np_sign
  rcases lt_trichotomy q 0 with h2 | h2 | h2
  · rw [if_pos h2]; exact Or.inr rfl
  · exact absurd h2 h
  · rw [if_neg (not_lt.2 (le_of_lt h2)), if_pos h2]; exact Or.inl rfl

theorem ray_step_of_select {sgn : List Int} {sa : List ℚ} {ix : List Int}
    {ic : List ℚ} {m : Nat} {ms : ℚ} (h : select_min sa ic = (some m, ms)) :
    ray_step sgn sa (ix, ic) = some (ix.set m (ix.getD m 0 + sgn.getD m 0),
      (List.range sa.length).map
        (fun i => if i = m then 0 else ic.getD i 0 + ms * sa.getD i 0)) := by
  unfold ray_step
  dsimp only
  rw [h]

theorem ray_axis_state (o0 o1 : Int) (k : Nat) :
    ray_states [(1 : ℚ), 0] [o0, o1] k = some ([o0 + (k : Int), o1], [0, 0]) := by
  induction k with
  | zero =>
      rw [ray_states]
      simp
  | succ k ih =>
      rw [ray_states, ih]
      show ray_step (slope_sgn [1, 0]) (slope_abs [1, 0])
        ([o0 + (k : Int), o1], [0, 0]) = _
      have habs : slope_abs [(1 : ℚ), 0] = [1, 0] := by
        unfold slope_abs
        norm_num
      have hr2 : List.range 2 = [0, 1] := rfl
      have hsel : select_min (slope_abs [(1 : ℚ), 0]) [0, 0] = (some 0, 1) := by
        rw [habs]
        unfold select_min
        rw [show ([(1 : ℚ), 0]).length = 2 from rfl, hr2]
        simp only [List.foldl_cons, List.foldl_nil, List.getD]
        norm_num
      have hsg : (slope_sgn [(1 : ℚ), 0]).getD 0 0 = 1 := by
        unfold slope_sgn np_sign
        norm_num [List.getD]
      rw [ray_step_of_select hsel]
      have hidx : ([o0 + (k : Int), o1].set 0
          ([o0 + (k : Int), o1].getD 0 0 + (slope_sgn [(1 : ℚ), 0]).getD 0 0))
          = [o0 + ((k : Int) + 1), o1] := by
        rw [hsg]
        simp [List.set, List.getD]
        ring
      have hic : (List.range (slope_abs [(1 : ℚ), 0]).length).map
          (fun i => if i = 0 then (0 : ℚ)
            else ([(0 : ℚ), 0]).getD i 0 + 1 * (slope_abs [(1 : ℚ), 0]).getD i 0)
          = [0, 0] := by
        rw [show (slope_abs [(1 : ℚ), 0]).length = 2 from rfl, hr2]
        simp only [List.map_cons, List.map_nil]
        rw [habs]
        norm_num [List.getD]
      have hcast : ((k + 1 : Nat) : Int) = (k : Int) + 1 := by push_cast; ring
      rw [hidx, hic, hcast]

theorem ray_axis_yield (o0 o1 : Int) (k : Nat) :
    ray_yield [(1 : ℚ), 0] [o0, o1] k = some [o0 + (k : Int) + 1, o1] := by
  unfold ray_yield
  rw [ray_axis_state o0 o1 (k + 1)]
  have hcast : ((k + 1 : Nat) : Int) = (k : Int) + 1 := by push_cast; ring
  rw [Option.map_some', hcast]
  show some [o0 + ((k : Int) + 1), o1] = some [o0 + (k : Int) + 1, o1]
  rw [add_assoc]

theorem wrap32_add_one (x : Int) : wrap32 (wrap32 x + 1) = wrap32 (x + 1) := by
  unfold wrap32
  omega

theorem wrap32_of_range {x : Int} (h1 : -2 ^ 31 ≤ x) (h2 : x < 2 ^ 31) :
    wrap32 x = x := by
  unfold wrap32
  omega

theorem ray_step_c_of_select {sgn : List Int} {sa : List ℚ} {ix : List Int}
    {ic : List ℚ} {m : Nat} {ms : ℚ} (h : select_min sa ic = (some m, ms)) :
    ray_step_c sgn sa (ix, ic)
      = (ix.set m (wrap32 (ix.getD m 0 + sgn.getD m 0)),
         (List.range sa.length).map
           (fun i => if i = m then 0 else ic.getD i 0 + ms * sa.getD i 0)) := by
  unfold ray_step_c
  dsimp only
  rw [h]

theorem ray_step_c_of_none {sgn : List Int} {sa : List ℚ} {ix : List Int}
    {ic : List ℚ} {ms : ℚ} (h : select_min sa ic = (none, ms)) :
    ray_step_c sgn sa (ix, ic)
      = (ix, (List.range sa.length).map
          (fun i => ic.getD i 0 + ms * sa.getD i 0)) := by
  unfold ray_step_c
  dsimp only
  rw [h]

theorem ray_step_c_refines {sgn : List Int} {sa : List ℚ} {ix : List Int}
    {ic : List ℚ} {st' : List Int × List ℚ}
    (h : ray_step sgn sa (ix, ic) = some st')
    (hrange : ∀ m, -2 ^ 31 ≤ ix.getD m 0 + sgn.getD m 0
      ∧ ix.getD m 0 + sgn.getD m 0 < 2 ^ 31) :
    ray_step_c sgn sa (ix, ic) = st' := by
  unfold ray_step at h
  dsimp only at h
  rcases hsel : select_min sa ic with ⟨mo, ms⟩
  rw [hsel] at h
  cases mo with
  | none => exact absurd h (by simp)
  | some m =>
      rw [ray_step_c_of_select hsel,
        wrap32_of_range (hrange m).1 (hrange m).2, ← Option.some.inj h]

theorem select_min_axis10 :
    select_min (slope_abs [(1 : ℚ), 0]) [0, 0] = (some 0, 1) := by
  have habs : slope_abs [(1 : ℚ), 0] = [1, 0] := by
    unfold slope_abs
    norm_num
  rw [habs]
  unfold select_min
  rw [show ([(1 : ℚ), 0]).length = 2 from rfl, show List.range 2 = [0, 1] from rfl]
  simp only [List.foldl_cons, List.foldl_nil, List.getD]
  norm_num

theorem select_min_tiny0 :
    select_min (slope_abs [1 / 10 ^ 12, 0]) [0, 0] = (none, 100000000000) := by
  have habs : slope_abs [(1 : ℚ) / 10 ^ 12, 0] = [1 / 10 ^ 12, 0] := by
    unfold slope_abs
    norm_num
  rw [habs]
  unfold select_min
  rw [show ([(1 : ℚ) / 10 ^ 12, 0]).length = 2 from rfl,
    show List.range 2 = [0, 1] from rfl]
  simp only [List.foldl_cons, List.foldl_nil, List.getD]
  norm_num

theorem select_min_tiny1 :
    select_min (slope_abs [1 / 10 ^ 12, 0]) [1 / 10, 0]
      = (none, 100000000000) := by
  have habs : slope_abs [(1 : ℚ) / 10 ^ 12, 0] = [1 / 10 ^ 12, 0] := by
    unfold slope_abs
    norm_num
  rw [habs]
  unfold select_min
  rw [show ([(1 : ℚ) / 10 ^ 12, 0]).length = 2 from rfl,
    show List.range 2 = [0, 1] from rfl]
  simp only [List.foldl_cons, List.foldl_nil, List.getD]
  norm_num

theorem ray_axis_state_c (o0 o1 : Int) (k : Nat) :
    ray_states_c [(1 : ℚ), 0] [o0, o1] (k + 1)
      = ([wrap32 (o0 + (k : Int) + 1), o1], [0, 0]) := by
  have hr2 : List.range 2 = [0, 1] := rfl
  have habs : slope_abs [(1 : ℚ), 0] = [1, 0] := by
    unfold slope_abs
    norm_num
  have hsg : (slope_sgn [(1 : ℚ), 0]).getD 0 0 = 1 := by
    unfold slope_sgn np_sign
    norm_num [List.getD]
  have hic : (List.range (slope_abs [(1 : ℚ), 0]).length).map
      (fun i => if i = 0 then (0 : ℚ)
        else ([(0 : ℚ), 0]).getD i 0 + 1 * (slope_abs [(1 : ℚ), 0]).getD i 0)
      = [0, 0] := by
    rw [show (slope_abs [(1 : ℚ), 0]).length = 2 from rfl, hr2]
    simp only [List.map_cons, List.map_nil]
    rw [habs]
    norm_num [List.getD]
  induction k with
  | zero =>
      show ray_step_c (slope_sgn [(1 : ℚ), 0]) (slope_abs [(1 : ℚ), 0])
        (ray_states_c [(1 : ℚ), 0] [o0, o1] 0) = _
      have h0 : ray_states_c [(1 : ℚ), 0] [o0, o1] 0 = ([o0, o1], [0, 0]) := by
        rw [ray_states_c]
        simp
      rw [h0, ray_step_c_of_select select_min_axis10]
      have hidx : ([o0, o1].set 0
          (wrap32 ([o0, o1].getD 0 0 + (slope_sgn [(1 : ℚ), 0]).getD 0 0)))
          = [wrap32 (o0 + ((0 : Nat) : Int) + 1), o1] := by
        rw [hsg]
        simp only [List.set, List.getD]
        norm_num
      rw [hic, hidx]
  | succ k ih =>
      show ray_step_c (slope_sgn [(1 : ℚ), 0]) (slope_abs [(1 : ℚ), 0])
        (ray_states_c [(1 : ℚ), 0] [o0, o1] (k + 1)) = _
      rw [ih, ray_step_c_of_select select_min_axis10]
      have hidx : ([wrap32 (o0 + (k : Int) + 1), o1].set 0
          (wrap32 ([wrap32 (o0 + (k : Int) + 1), o1].getD 0 0
            + (slope_sgn [(1 : ℚ), 0]).getD 0 0)))
          = [wrap32 (o0 + ((k + 1 : Nat) : Int) + 1), o1] := by
        rw [hsg]
        simp only [List.set, List.getD]
        rw [show ([wrap32 (o0 + (k : Int) + 1), o1].get? 0).getD 0
          = wrap32 (o0 + (k : Int) + 1) from rfl, wrap32_add_one]
        have hcast : o0 + ((k + 1 : Nat) : Int) + 1 = o0 + (k : Int) + 1 + 1 := by
          push_cast
          ring
        rw [hcast]
      rw [hic, hidx]

theorem ray_axis_yield_c (o0 o1 : Int) (k : Nat) :
    ray_yield_c [(1 : ℚ), 0] [o0, o1] k = [wrap32 (o0 + (k : Int) + 1), o1] := by
  unfold ray_yield_c
  rw [ray_axis_state_c]

/-- C6 counterexample: the in-scope direction `(10⁻¹², 0)` has a nonzero
component, yet every per-axis step size is at least `10¹²` and never beats
the `min_step = 10e10` sentinel, so `min_dim` stays `-1` and the generator
yields the *unchanged* coordinate: the first yield equals the origin and the
second yield equals the first — consecutive yielded coordinates are equal,
refuting the one-unit-step-per-yield claim at a concrete input. -/
theorem ray_sentinel_cex :
    ((1 : ℚ) / 10 ^ 12 ≠ 0)
    ∧ ray_yield_c [1 / 10 ^ 12, 0] [0, 0] 0 = [0, 0]
    ∧ ray_yield_c [1 / 10 ^ 12, 0] [0, 0] 1 = [0, 0] := by
  have h0 : ray_states_c [(1 : ℚ) / 10 ^ 12, 0] [0, 0] 0
      = ([0, 0], [0, 0]) := by
    rw [ray_states_c]
    simp
  have habs : slope_abs [(1 : ℚ) / 10 ^ 12, 0] = [1 / 10 ^ 12, 0] := by
    unfold slope_abs
    norm_num
  have h1 : ray_states_c [(1 : ℚ) / 10 ^ 12, 0] [0, 0] 1
      = ([0, 0], [1 / 10, 0]) := by
    show ray_step_c (slope_sgn [(1 : ℚ) / 10 ^ 12, 0])
      (slope_abs [(1 : ℚ) / 10 ^ 12, 0])
      (ray_states_c [(1 : ℚ) / 10 ^ 12, 0] [0, 0] 0) = _
    rw [h0, ray_step_c_of_none select_min_tiny0,
      show (slope_abs [(1 : ℚ) / 10 ^ 12, 0]).length = 2 from rfl,
      show List.range 2 = [0, 1] from rfl]
    simp only [List.map_cons, List.map_nil]
    rw [habs]
    norm_num [List.getD]
  have h2 : ray_states_c [(1 : ℚ) / 10 ^ 12, 0] [0, 0] 2
      = ([0, 0], [1 / 5, 0]) := by
    show ray_step_c (slope_sgn [(1 : ℚ) / 10 ^ 12, 0])
      (slope_abs [(1 : ℚ) / 10 ^ 12, 0])
      (ray_states_c [(1 : ℚ) / 10 ^ 12, 0] [0, 0] 1) = _
    rw [h1, ray_step_c_of_none select_min_tiny1,
      show (slope_abs [(1 : ℚ) / 10 ^ 12, 0]).length = 2 from rfl,
      show List.range 2 = [0, 1] from rfl]
    simp only [List.map_cons, List.map_nil]
    rw [habs]
    norm_num [List.getD]
  refine ⟨by norm_num, ?_, ?_⟩
  · unfold ray_yield_c
    rw [show (0 : Nat) + 1 = 1 from rfl, h1]
  · unfold ray_yield_c
    rw [show (1 : Nat) + 1 = 2 from rfl, h2]

/-- C6 amended: over the machine-faithful generator model (32-bit wrapping
`cdef int` coordinates; `min_step` initialized to the `10e10` sentinel):
(i) whenever the per-iteration minimum search selects an axis, the yielded
coordinate differs from its predecessor by exactly one wrapped unit in
exactly one axis; (ii) when no axis's step size beats the sentinel,
`min_dim` stays `-1` and the yielded coordinate *equals* its predecessor;
(iii) for the axis-aligned direction `(1, 0)` the `k`-th yield is
`(wrap32 (o0 + k + 1), o1)` — the claimed `origin + (k+1, 0)` exactly while
no 32-bit overflow occurs. -/
theorem ray_step_property_machine :
    (∀ (slope : List ℚ) (ix : List Int) (ic : List ℚ) (m : Nat) (ms : ℚ),
      select_min (slope_abs slope) ic = (some m, ms) →
      ∃ d, (d = 1 ∨ d = -1)
        ∧ (ray_step_c (slope_sgn slope) (slope_abs slope) (ix, ic)).1
            = ix.set m (wrap32 (ix.getD m 0 + d)))
    ∧ (∀ (slope : List ℚ) (ix : List Int) (ic : List ℚ) (ms : ℚ),
      select_min (slope_abs slope) ic = (none, ms) →
      (ray_step_c (slope_sgn slope) (slope_abs slope) (ix, ic)).1 = ix)
    ∧ (∀ (o0 o1 : Int) (k : Nat),
      ray_yield_c [(1 : ℚ), 0] [o0, o1] k
        = [wrap32 (o0 + (k : Int) + 1), o1]) := by
  refine ⟨?_, ?_, ray_axis_yield_c⟩
  · intro slope ix ic m ms hsel
    have hm := select_min_some
      (by rw [hsel] : (select_min (slope_abs slope) ic).1 = some m)
    have hms : m < slope.length := by simpa [slope_abs] using hm.1
    have hq : slope.getD m 0 ≠ 0 := by
      intro e
      have hz := hm.2
      rw [show (slope_abs slope).getD m 0 = |slope.getD m 0| from
        getD_map_of_lt _ slope 0 0 m hms, e] at hz
      simp at hz
    have hsgn : (slope_sgn slope).getD m 0 = np_sign (slope.getD m 0) :=
      getD_map_of_lt np_sign slope 0 0 m hms
    refine ⟨(slope_sgn slope).getD m 0, ?_, ?_⟩
    · rw [hsgn]
      exact np_sign_pm hq
    · rw [ray_step_c_of_select hsel]
  · intro slope ix ic ms hsel
    rw [ray_step_c_of_none hsel]

/-- Witness for the amended C6: the selected-axis case for direction `(1,0)`
at the coordinate `(5,7)`, and the axis-aligned yield at the origin. -/
theorem ray_step_property_machine_witness :
    (∃ d, (d = 1 ∨ d = -1)
      ∧ (ray_step_c (slope_sgn [(1 : ℚ), 0]) (slope_abs [(1 : ℚ), 0])
          ([5, 7], [0, 0])).1
          = ([5, 7] : List Int).set 0
            (wrap32 (([5, 7] : List Int).getD 0 0 + d)))
    ∧ ray_yield_c [(1 : ℚ), 0] [0, 0] 0
        = [wrap32 ((0 : Int) + ((0 : Nat) : Int) + 1), 0] :=
  ⟨ray_step_property_machine.1 [1, 0] [5, 7] [0, 0] 0 1 select_min_axis10,
   ray_step_property_machine.2.2 0 0 0⟩

/-- C9: `ray(index, slope)` raises the unsupported-dimensionality
`ValueError` exactly when `len(index)` is neither 2 nor 3 (yielding no
coordinates); for arities 2 and 3 it returns the generator. -/
theorem ray_dimensionality (index : List Int) (slope : List ℚ) :
    (ray index slope = .error .valueError
      ↔ ¬(index.length = 2 ∨ index.length = 3))
    ∧ ((index.length = 2 ∨ index.length = 3) →
        ray index slope = .ok (ray_yield slope index)) := by
  unfold ray
  by_cases h : index.length = 2 ∨ index.length = 3
  · rw [if_pos h]
    exact ⟨⟨fun h2 => absurd h2 (by simp), fun h2 => absurd h h2⟩, fun _ => rfl⟩
  · rw [if_neg h]
    exact ⟨⟨fun _ => h, fun _ => rfl⟩, fun h2 => absurd h2 h⟩

/-- Witness for C9: a 1-dimensional index raises, a 2-dimensional one does
not. -/
theorem ray_dimensionality_witness :
    ray [0] [(1 : ℚ)] = .error .valueError
    ∧ ray [0, 0] [(1 : ℚ), 0] = .ok (ray_yield [1, 0] [0, 0]) :=
  ⟨(ray_dimensionality [0] [1]).1.2 (by norm_num),
   (ray_dimensionality [0, 0] [1, 0]).2 (Or.inl rfl)⟩

/-- C8 counterexample: on a zero-norm sample `random_direction` and its 3D
fast path do divide by the zero norm (IEEE `0.0/0.0`, no exception), so the
claim that the result is produced without dividing by the zero norm is false
at the concrete input `(0,0,0)` (and `(0,0)` for the generic path). -/
theorem random_direction_cex :
    random_direction 3 [0, 0, 0] = NormedVec.dividedByZero
    ∧ random_direction 2 [0, 0] = NormedVec.dividedByZero := by
  constructor
  · unfold random_direction random_direction3 norm_sq
    norm_num
  · unfold random_direction norm_sq
    norm_num

/-- C8 amended: `random_direction` divides by the sampled vector's norm
unconditionally; the division is by zero exactly when every sampled
component is zero (zero norm), and otherwise no division by zero occurs. -/
theorem random_direction_divzero_iff (n : Nat) (x : List ℚ) :
    random_direction n x = NormedVec.dividedByZero ↔ ∀ a ∈ x, a = 0 := by
  have hns : norm_sq x = 0 ↔ ∀ a ∈ x, a = 0 := by
    unfold norm_sq
    induction x with
    | nil => simp
    | cons a l ih =>
        simp only [List.map_cons, List.sum_cons, List.mem_cons]
        constructor
        · intro h
          have hl : 0 ≤ (l.map (fun a => a * a)).sum := by
            apply List.sum_nonneg
            intro y hy
            rcases List.mem_map.1 hy with ⟨b, _, rfl⟩
            exact mul_self_nonneg b
          have ha : a * a = 0 := by nlinarith [mul_self_nonneg a]
          have h2 : (l.map (fun a => a * a)).sum = 0 := by
            nlinarith [mul_self_nonneg a]
          intro b hb
          rcases hb with rfl | hb
          · exact mul_self_eq_zero.1 ha
          · exact (ih.1 h2) b hb
        · intro h
          have ha : a = 0 := h a (Or.inl rfl)
          have h2 : (l.map (fun a => a * a)).sum = 0 :=
            ih.2 (fun b hb => h b (Or.inr hb))
          rw [ha, h2]
          ring
  have hbranch : (if norm_sq x = 0 then NormedVec.dividedByZero
      else NormedVec.unitVec x (norm_sq x)) = NormedVec.dividedByZero
      ↔ norm_sq x = 0 := by
    by_cases h : norm_sq x = 0
    · simp [h]
    · simp [h]
  unfold random_direction random_direction3
  by_cases hn : n = 3
  · rw [if_pos hn, ← hns]
    exact hbranch
  · rw [if_neg hn, ← hns]
    exact hbranch

/-- C7 (code bug): for a *placed* slot, `GridSlot.neighbors` does not return
the adjacent stored slots — its membership probe uses a Python list as a dict
key, raising `TypeError` — contradicting its own docstring ("the neighboring
orthogonal positions in the grid that contain a slot"), which the intended
query (tuple-converted probe) satisfies; for an unplaced slot it does raise
the invalid-state `ValueError` as claimed. -/
theorem neighbors_list_key_bug :
    neighbors gEx2 0 = .error .typeError
    ∧ neighbors_intended gEx2 0 = .ok [1]
    ∧ neighbors gEx2 2 = .error .valueError := by
  refine ⟨rfl, ?_, rfl⟩
  show neighbors_intended gEx2 0 = .ok [1]
  rfl

/-- C3: starting from a freshly constructed (empty) grid, after any finite
sequence of `set`/`delete` operations every stored pair satisfies
`slot.index == coordinate`, no coordinate maps to more than one slot, and no
slot is stored under two distinct coordinates simultaneously. -/
theorem grid_bijection_invariant (n : Nat) (ix0 : SlotId → Option Idx)
    (hg0 : SlotId → Bool) (ops : List GOp) :
    (∀ p ∈ (runOps (emptyGrid n ix0 hg0) ops).content,
        (runOps (emptyGrid n ix0 hg0) ops).index p.2 = some p.1)
    ∧ ((runOps (emptyGrid n ix0 hg0) ops).content.map Prod.fst).Nodup
    ∧ (∀ c1 c2 s,
        lookupIdx c1 (runOps (emptyGrid n ix0 hg0) ops).content = some s →
        lookupIdx c2 (runOps (emptyGrid n ix0 hg0) ops).content = some s →
        c1 = c2) := by
  have hWF := runOps_WF (emptyGrid_WF n ix0 hg0) ops
  exact ⟨hWF.idx, hWF.nodupKeys, fun c1 c2 s h1 h2 => hWF.lookup_inj h1 h2⟩

/-- C4 counterexample: in the reachable state `gStale` (slot 0 stored at
`(0,)`; slot 1 unplaced with a stale `.index` of `(0,)`), `set((0,), slot 1)`
evicts slot 0 through the raw `del self._content[slot.index]` path, so slot
0's recorded coordinate is *not* reset to `none` — part (b) of the claim
fails at this concrete input. -/
theorem set_evict_no_orphan_cex :
    lookupIdx [0] gStale.content = some 0
    ∧ (0 : SlotId) ≠ 1
    ∧ obsIdx (gStale.set [0] 1) 0 = some (some [0])
    ∧ some (some ([0] : Idx)) ≠ some (none : Option Idx) := by
  refine ⟨rfl, by decide, ?_, by decide⟩
  rfl

/-- C4 amended: after `g.set(c, s)` on a well-formed grid, (a) a stored old
coordinate of `s` other than `c` is vacated; (b) a previous occupant `t ≠ s`
of `c` is orphaned (index `none`) and evicted — *provided* `s`'s recorded
index is not the stale coordinate `c` itself, in which case `t` is evicted
by the raw dictionary deletion with its recorded coordinate left untouched;
(c) `s.index = c` and the grid maps `c` to `s`. -/
theorem set_postconditions {g : Grid} {c : Idx} {s : SlotId} (hWF : g.WF)
    (hlen : c.length = g.nDims) :
    ∃ g', g.set c s = .ok g'
    ∧ (∀ c0, g.index s = some c0 → (lookupIdx c0 g.content).isSome = true →
        c0 ≠ c → lookupIdx c0 g'.content = none)
    ∧ (∀ t, lookupIdx c g.content = some t → t ≠ s → g.index s ≠ some c →
        g'.index t = none ∧ ¬ stored g' t)
    ∧ (∀ t, lookupIdx c g.content = some t → t ≠ s → g.index s = some c →
        g'.index t = g.index t ∧ ¬ stored g' t)
    ∧ g'.index s = some c ∧ lookupIdx c g'.content = some s := by
  have hn := hWF.nodupKeys
  have hnotstored : ∀ t, lookupIdx c g.content = some t → t ≠ s →
      ¬ stored (setBody g c s) t := by
    intro t hct hts hst
    rcases stored_iff.1 hst with ⟨⟨a, b⟩, hp, he⟩
    dsimp only at he
    subst he
    rcases (setBody_mem_iff hn).1 hp with he2 | ⟨hm, hne⟩
    · exact hts (congrArg Prod.snd he2)
    · have hmm : (a, b) ∈ g.content := (setC1_sublist g s).mem hm
      have h1 : g.index b = some a := hWF.idx (a, b) hmm
      have h2 : g.index b = some c := hWF.idx (c, b) (lookupIdx_mem hct)
      rw [h1] at h2
      dsimp only at hne
      exact hne (Option.some.inj h2)
  refine ⟨setBody g c s, set_ok s hlen, ?_, ?_, ?_, setBody_index_self g c s,
    setBody_lookup_self g c s⟩
  · intro c0 hc0 hocc hne
    rw [setBody_lookup_ne s hn hne, hc0, if_pos rfl]
  · intro t hct hts hstale
    refine ⟨?_, hnotstored t hct hts⟩
    rw [setBody_index_ne hts, lookup_setC1 s c hn, if_neg hstale, hct,
      if_pos rfl]
  · intro t hct hts hstale
    refine ⟨?_, hnotstored t hct hts⟩
    rw [setBody_index_ne hts, lookup_setC1 s c hn, if_pos hstale]
    simp

/-- Witness for the amended C4 at the concrete state `gStale`. -/
theorem set_postconditions_witness :
    ∃ g', gStale.set [0] 1 = .ok g'
    ∧ (∀ c0, gStale.index 1 = some c0 →
        (lookupIdx c0 gStale.content).isSome = true →
        c0 ≠ [0] → lookupIdx c0 g'.content = none)
    ∧ (∀ t, lookupIdx [0] gStale.content = some t → t ≠ 1 →
        gStale.index 1 ≠ some [0] →
        g'.index t = none ∧ ¬ stored g' t)
    ∧ (∀ t, lookupIdx [0] gStale.content = some t → t ≠ 1 →
        gStale.index 1 = some [0] →
        g'.index t = gStale.index t ∧ ¬ stored g' t)
    ∧ g'.index 1 = some [0] ∧ lookupIdx [0] g'.content = some 1 :=
  set_postconditions (g := gStale) (c := [0]) (s := 1) (by decide) (by decide)

/-- C10 counterexample: with slot 0 stored at `(0,)` and the unplaced slot 1
carrying the stale index `(0,)`, `set((1,), slot 1)` removes slot 0's entry
but does *not* orphan it — slot 0's `.index` field still records `(0,)` —
refuting the claim's "t's index becomes none" at this concrete input. -/
theorem set_stale_cex :
    lookupIdx [0] gStale.content = some 0
    ∧ gStale.index 1 = some [0]
    ∧ ¬ stored gStale 1
    ∧ obsLookup (gStale.set [1] 1) [0] = some none
    ∧ obsIdx (gStale.set [1] 1) 0 = some (some [0]) := by
  refine ⟨rfl, rfl, by decide, ?_, ?_⟩ <;> rfl

/-- C10 amended: if the incoming slot `s` is unstored but carries a stale
recorded index `c` occupied by a different slot `t`, then `g.set(c2, s)`
removes `t`'s entry at `c` (for any `c2`), yet `t` is *not* orphaned: the raw
dictionary deletion leaves `t.index` still recording `c`. -/
theorem set_stale_removes_without_orphan {g : Grid} {c c2 : Idx}
    {s t : SlotId} (hWF : g.WF) (hs : ¬ stored g s) (hgi : g.index s = some c)
    (hc : lookupIdx c g.content = some t) (hts : t ≠ s)
    (hlen : c2.length = g.nDims) :
    ∃ g', g.set c2 s = .ok g'
    ∧ ¬ stored g' t
    ∧ g'.index t = some c
    ∧ (c2 ≠ c → lookupIdx c g'.content = none)
    ∧ (c2 = c → lookupIdx c g'.content = some s) := by
  have hn := hWF.nodupKeys
  have hsome : (lookupIdx c g.content).isSome = true := by rw [hc]; rfl
  have hC1 : setC1 g s = eraseKey c g.content := setC1_of_stored hgi hsome
  have hit : g.index t = some c := hWF.idx (c, t) (lookupIdx_mem hc)
  refine ⟨setBody g c2 s, set_ok s hlen, ?_, ?_, ?_, ?_⟩
  · intro hst
    rcases stored_iff.1 hst with ⟨⟨a, b⟩, hp, he⟩
    dsimp only at he
    subst he
    rcases (setBody_mem_iff hn).1 hp with he2 | ⟨hm, hne⟩
    · exact hts (congrArg Prod.snd he2)
    · rw [hC1, mem_eraseKey_iff hn] at hm
      have h1 : g.index b = some a := hWF.idx (a, b) hm.1
      rw [hit] at h1
      exact hm.2 (Option.some.inj h1).symm
  · rw [setBody_index_ne hts, lookup_setC1 s c2 hn]
    by_cases he : g.index s = some c2
    · rw [if_pos he]
      simp [hit]
    · rw [if_neg he]
      have hcc2 : c ≠ c2 := by
        intro e
        exact he (e ▸ hgi)
      have : lookupIdx c2 g.content ≠ some t := by
        intro h2
        exact hcc2 (hWF.lookup_inj hc h2)
      rw [if_neg this]
      exact hit
  · intro hne
    rw [setBody_lookup_ne s hn (Ne.symm hne), hgi, if_pos rfl]
  · intro he
    subst he
    exact setBody_lookup_self g c2 s

/-- Witness for the amended C10 at the concrete state `gStale` with the
distinct target coordinate `(1,)`. -/
theorem set_stale_removes_without_orphan_witness :
    ∃ g', gStale.set [1] 1 = .ok g'
    ∧ ¬ stored g' 0
    ∧ g'.index 0 = some [0]
    ∧ (([1] : Idx) ≠ [0] → lookupIdx [0] g'.content = none)
    ∧ (([1] : Idx) = [0] → lookupIdx [0] g'.content = some 1) :=
  @set_stale_removes_without_orphan gStale [0] [1] 1 0 (by decide) (by decide)
    (by decide) (by decide) (by decide) (by decide)

theorem Grid.WF.slots_nodup {g : Grid} (h : g.WF) : g.slots.Nodup := by
  have hcn : g.content.Nodup := List.Nodup.of_map Prod.fst h.nodupKeys
  refine List.Nodup.map_on ?_ hcn
  intro p hp q hq he
  have h1 := h.idx p hp
  have h2 := h.idx q hq
  rw [he, h2] at h1
  have hfst : p.1 = q.1 := (Option.some.inj h1).symm
  cases p
  cases q
  simp only at hfst he
  rw [hfst, he]

theorem ray_axis_yields_one :
    ray_yields [(1 : ℚ), 0] [0, 0] 1 = some [[1, 0]] := by
  have h0 : ray_yield [(1 : ℚ), 0] [0, 0] 0 = some [1, 0] := by
    have h := ray_axis_yield 0 0 0
    norm_num at h
    exact h
  show ray_yields [(1 : ℚ), 0] [0, 0] (0 + 1) = some [[1, 0]]
  rw [ray_yields, h0]
  rfl

theorem ray_axis_yields_two :
    ray_yields [(1 : ℚ), 0] [0, 0] 2 = some [[1, 0], [2, 0]] := by
  have h1 : ray_yield [(1 : ℚ), 0] [0, 0] 1 = some [2, 0] := by
    have h := ray_axis_yield 0 0 1
    norm_num at h
    exact h
  show ray_yields [(1 : ℚ), 0] [0, 0] (1 + 1) = some [[1, 0], [2, 0]]
  rw [ray_yields, ray_axis_yields_one, h1]
  rfl

/-- C1: for a well-formed 2/3-dimensional grid in which `origin` is occupied
and the sampled ray's first `n` yields are occupied with yield `n` free,
`make_space(origin)` returns with `origin` unoccupied, the number of occupied
coordinates unchanged, every previously stored slot still stored (and
conversely), and no slot stored twice. -/
theorem make_space_conservation {g : Grid} {idx : List Int} {slope : List ℚ}
    {n : Nat} {ys : List (List Int)}
    (hWF : g.WF)
    (hd : idx.length = 2 ∨ idx.length = 3)
    (hsl : slope.length = idx.length)
    (hlen : idx.length = g.nDims)
    (hys : ray_yields slope idx (n + 1) = some ys)
    (hocc : occupied g idx = true)
    (hch : ∀ k, k < n → occupied g (ys.getD k []) = true)
    (hfree : occupied g (ys.getD n []) = false) :
    ∃ g', make_space g idx slope n = .ok g'
    ∧ occupied g' idx = false
    ∧ g'.size = g.size
    ∧ (∀ t, stored g' t ↔ stored g t)
    ∧ g'.slots.Nodup := by
  have hfree' : lookupIdx (ys.getD n []) g.content = none := by
    unfold occupied at hfree
    cases hl : lookupIdx (ys.getD n []) g.content with
    | none => rfl
    | some u => rw [hl] at hfree; simp at hfree
  obtain ⟨g', hrun, hWF', _, _, hsz, hnone, hst, _, _, _⟩ :=
    make_space_spec hWF hd hsl hys hocc hch hfree' hlen
  refine ⟨g', hrun, ?_, hsz, hst, hWF'.slots_nodup⟩
  unfold occupied
  rw [hnone]
  rfl

/-- Witness for C1: the two-slot grid `gEx2`, origin `(0,0)`, direction
`(1,0)`; the chain `(0,0), (1,0)` shifts into the free `(2,0)`. -/
theorem make_space_conservation_witness :
    ∃ g', make_space gEx2 [0, 0] [1, 0] 1 = .ok g'
    ∧ occupied g' [0, 0] = false
    ∧ g'.size = gEx2.size
    ∧ (∀ t, stored g' t ↔ stored gEx2 t)
    ∧ g'.slots.Nodup :=
  make_space_conservation (g := gEx2) (by decide) (Or.inl rfl) rfl (by decide)
    ray_axis_yields_two (by decide) (by decide) (by decide)

theorem make_space_axis (g : Grid) (o0 o1 : Int) (n : Nat)
    (ys : List (List Int))
    (hys : ray_yields [(1 : ℚ), 0] [o0, o1] (n + 1) = some ys) :
    make_space g [o0, o1] [1, 0] n
      = shiftMoves g (ys.getD n []) (([o0, o1] :: ys.take n).reverse) := by
  unfold make_space
  have hd : ([o0, o1] : List Int).length = 2 ∨ ([o0, o1] : List Int).length = 3 :=
    Or.inl rfl
  have hne : ¬ (([1, 0] : List ℚ).length ≠ ([o0, o1] : List Int).length) :=
    fun h => h rfl
  rw [if_neg (not_not_intro hd), if_neg hne, hys]

theorem rwc_two_children_spec {g : Grid} {p ch1 ch2 : SlotId} {c0 : Idx}
    {slope : List ℚ} {n : Nat} {ys : List (List Int)}
    (hWF : g.WF) (hdims : g.nDims = 2 ∨ g.nDims = 3)
    (hp : lookupIdx c0 g.content = some p)
    (hsl : slope.length = c0.length)
    (hys : ray_yields slope c0 (n + 1) = some ys)
    (hch : ∀ k, k < n → (lookupIdx (ys.getD k []) g.content).isSome = true)
    (hfree : lookupIdx (ys.getD n []) g.content = none)
    (h1 : ¬ stored g ch1) (h2 : ¬ stored g ch2) (h12 : ch1 ≠ ch2) :
    ∃ g', replace_with_children g p [ch1, ch2] [(slope, n)] = .ok g'
    ∧ ys.getD 0 [] ≠ c0
    ∧ lookupIdx c0 g'.content = some ch1
    ∧ lookupIdx (ys.getD 0 []) g'.content = some ch2
    ∧ g'.index ch2 = some (ys.getD 0 [])
    ∧ g'.index p = none ∧ ¬ stored g' p
    ∧ g'.size = g.size + 1 := by
  have hip : g.index p = some c0 := hWF.idx (c0, p) (lookupIdx_mem hp)
  have hlen0 : c0.length = g.nDims := hWF.len (c0, p) (lookupIdx_mem hp)
  have hd : c0.length = 2 ∨ c0.length = 3 := by rw [hlen0]; exact hdims
  obtain ⟨hyslen, hyk⟩ := ray_yields_spec hys
  have hy0 : ray_yield slope c0 0 = some (ys.getD 0 []) := hyk 0 (by omega)
  have hy0ne : ys.getD 0 [] ≠ c0 := ray_yield_ne_origin hsl hy0
  have hy0len : (ys.getD 0 []).length = c0.length := ray_yield_length hy0
  obtain ⟨g1, hrun1, hWF1, hnD1, _, hsz1, hidxf, hst1, hixu1, htr1, _⟩ :=
    make_space_spec hWF hd hsl hys (by rw [hp]; rfl) hch hfree hlen0
  obtain ⟨hpix1, hplk1⟩ := htr1 p hp
  have hch1f : ¬ stored g1 ch1 := fun hx => h1 ((hst1 ch1).1 hx)
  obtain ⟨g2, hrun2, hWF2, hnD2, hsz2, hlk2, hlkne2, hst2, hix2, hixne2, _⟩ :=
    make_position_free hWF1 hch1f hidxf (by rw [hnD1]; exact hlen0)
  have hpch1 : p ≠ ch1 := fun e => h1 (e ▸ lookup_stored hp)
  have hpix2 : g2.index p = some (ys.getD 0 []) := by
    rw [hixne2 p hpch1]
    exact hpix1
  have hplk2 : lookupIdx (ys.getD 0 []) g2.content = some p := by
    rw [hlkne2 _ hy0ne]
    exact hplk1
  have hch2f : ¬ stored g2 ch2 := by
    rw [hst2 ch2]
    push_neg
    exact ⟨fun hx => h2 ((hst1 ch2).1 hx), Ne.symm (Ne.symm h12).symm⟩
  obtain ⟨g3, hrun3, hWF3, hnD3, hsz3, hlk3, hlkne3, hst3, hix3, hixp3, hnsp3,
      hixne3, _⟩ :=
    make_position_evict hWF2 hch2f hplk2
      (by rw [hnD2, hnD1, ← hlen0]; exact hy0len)
  refine ⟨g3, ?_, hy0ne, ?_, hlk3, hix3, hixp3, hnsp3, ?_⟩
  · unfold replace_with_children
    rw [show ([ch1, ch2] : List SlotId).getLast? = some ch2 from rfl]
    dsimp only
    rw [show ([ch1, ch2] : List SlotId).dropLast.zip [(slope, n)]
      = [(ch1, (slope, n))] from rfl]
    rw [rwc_loop, hip]
    dsimp only
    rw [hrun1]
    dsimp only
    rw [hrun2]
    dsimp only
    rw [rwc_loop]
    dsimp only
    rw [hpix2]
    exact hrun3
  · rw [hlkne3 c0 (Ne.symm hy0ne)]
    exact hlk2
  · rw [hsz3, hsz2, hsz1]

/-- C2 counterexample: the concrete one-slot grid `gPar` with two children
and the sampled direction `(1,0)`: after `replace_with_children`, the
original coordinate `(0,0)` holds the *first* child, while the final child is
placed at the parent's re-read coordinate `(1,0)` — not at the original
coordinate as the claim states. -/
theorem rwc_final_child_cex :
    gPar.index 0 = some [0, 0]
    ∧ (∃ g', replace_with_children gPar 0 [1, 2] [([(1 : ℚ), 0], 0)] = .ok g'
        ∧ lookupIdx [0, 0] g'.content = some 1
        ∧ lookupIdx [1, 0] g'.content = some 2
        ∧ g'.index 2 = some [1, 0])
    ∧ (1 : SlotId) ≠ 2
    ∧ ([1, 0] : Idx) ≠ [0, 0] := by
  refine ⟨rfl, ?_, by decide, by decide⟩
  obtain ⟨g', hrun, _, hc0, hy0, hix2, _, _, _⟩ :=
    @rwc_two_children_spec gPar 0 1 2 [0, 0] [1, 0] 0 [[1, 0]]
      (by decide) (Or.inl rfl) rfl rfl ray_axis_yields_one
      (by omega) rfl (by decide) (by decide) (by decide)
  exact ⟨g', hrun, hc0, hy0, hix2⟩

/-- C2 amended: `replace_with_children` re-reads `cell.position.index` at
every iteration and before the final placement.  For two children: the first
iteration uses the original coordinate `c0`, `make_space` displaces the
parent one ray step to `y0 ≠ c0`, and the first child is placed at `c0`; the
final child is then placed at the parent's re-read current coordinate `y0`
— not the original coordinate — without a preceding `make_space`, evicting
and orphaning the parent. -/
theorem replace_with_children_reread {g : Grid} {p ch1 ch2 : SlotId}
    {c0 : Idx} {slope : List ℚ} {n : Nat} {ys : List (List Int)}
    (hWF : g.WF) (hdims : g.nDims = 2 ∨ g.nDims = 3)
    (hp : lookupIdx c0 g.content = some p)
    (hsl : slope.length = c0.length)
    (hys : ray_yields slope c0 (n + 1) = some ys)
    (hch : ∀ k, k < n → (lookupIdx (ys.getD k []) g.content).isSome = true)
    (hfree : lookupIdx (ys.getD n []) g.content = none)
    (h1 : ¬ stored g ch1) (h2 : ¬ stored g ch2) (h12 : ch1 ≠ ch2) :
    ∃ g', replace_with_children g p [ch1, ch2] [(slope, n)] = .ok g'
    ∧ ys.getD 0 [] ≠ c0
    ∧ lookupIdx c0 g'.content = some ch1
    ∧ lookupIdx (ys.getD 0 []) g'.content = some ch2
    ∧ g'.index ch2 = some (ys.getD 0 [])
    ∧ g'.index p = none ∧ ¬ stored g' p
    ∧ g'.size = g.size + 1 :=
  rwc_two_children_spec hWF hdims hp hsl hys hch hfree h1 h2 h12

/-- Witness for the amended C2 at the concrete input `gPar`. -/
theorem replace_with_children_reread_witness :
    ∃ g', replace_with_children gPar 0 [1, 2] [([(1 : ℚ), 0], 0)] = .ok g'
    ∧ ([[1, 0]] : List (List Int)).getD 0 [] ≠ [0, 0]
    ∧ lookupIdx [0, 0] g'.content = some 1
    ∧ lookupIdx (([[1, 0]] : List (List Int)).getD 0 []) g'.content = some 2
    ∧ g'.index 2 = some (([[1, 0]] : List (List Int)).getD 0 [])
    ∧ g'.index 0 = none ∧ ¬ stored g' 0
    ∧ g'.size = gPar.size + 1 :=
  @replace_with_children_reread gPar 0 1 2 [0, 0] [1, 0] 0 [[1, 0]]
    (by decide) (Or.inl rfl) rfl rfl ray_axis_yields_one
    (by omega) rfl (by decide) (by decide) (by decide)

theorem rays_ok_gPar :
    rays_ok 0 gPar [(1, ([(1 : ℚ), 0], 0))] = true := by
  rw [rays_ok, show gPar.index 0 = some [0, 0] from rfl]
  dsimp only
  have h1 : ray_yields [(1 : ℚ), 0] [0, 0] (0 + 1) = some [[1, 0]] :=
    ray_axis_yields_one
  have hco : chain_ok gPar [0, 0] [1, 0] 0 = true := by
    unfold chain_ok
    rw [h1]
    dsimp only
    decide
  rw [hco, Bool.true_and,
    make_space_axis gPar 0 0 0 [[1, 0]] ray_axis_yields_one]
  decide

/-- C5: after `replace_with_children` on a placed slot with `k ≥ 1` fresh
distinct children, with every sampled ray reaching a free coordinate, the
occupied-coordinate count increases by exactly `k − 1` and all `k` children
are stored in the grid at pairwise distinct coordinates. -/
theorem replace_with_children_count {g : Grid} {p : SlotId}
    {children : List SlotId} {rays : List (List ℚ × Nat)}
    (hWF : g.WF) (hdims : g.nDims = 2 ∨ g.nDims = 3)
    (hp : stored g p) (hk : children ≠ [])
    (hfresh : ∀ ch ∈ children, ¬ stored g ch) (hnd : children.Nodup)
    (hlen : rays.length = children.length - 1)
    (hro : rays_ok p g (children.dropLast.zip rays) = true) :
    ∃ g', replace_with_children g p children rays = .ok g'
    ∧ g'.size + 1 = g.size + children.length
    ∧ (∀ ch ∈ children, ∃ c, lookupIdx c g'.content = some ch
        ∧ g'.index ch = some c)
    ∧ (∀ ch1 ch2 c, ch1 ∈ children → ch2 ∈ children →
        g'.index ch1 = some c → g'.index ch2 = some c → ch1 = ch2) := by
  obtain ⟨g', hrun, _, hsz, hcs, hinj, _, _⟩ :=
    replace_with_children_spec hWF hdims hp hk hfresh hnd hlen hro
  exact ⟨g', hrun, hsz, hcs, hinj⟩

/-- Witness for C5 at the concrete one-slot grid `gPar` with two children. -/
theorem replace_with_children_count_witness :
    ∃ g', replace_with_children gPar 0 [1, 2] [([(1 : ℚ), 0], 0)] = .ok g'
    ∧ g'.size + 1 = gPar.size + ([1, 2] : List SlotId).length
    ∧ (∀ ch ∈ ([1, 2] : List SlotId), ∃ c, lookupIdx c g'.content = some ch
        ∧ g'.index ch = some c)
    ∧ (∀ ch1 ch2 c, ch1 ∈ ([1, 2] : List SlotId) →
        ch2 ∈ ([1, 2] : List SlotId) →
        g'.index ch1 = some c → g'.index ch2 = some c → ch1 = ch2) :=
  @replace_with_children_count gPar 0 [1, 2] [([(1 : ℚ), 0], 0)]
    (by decide) (Or.inl rfl) (by decide) (by decide) (by decide) (by decide)
    rfl rays_ok_gPar
